import Mathlib

/-!
# Verification of the annotation-to-markdown pipeline

A shallow embedding, in Lean, of the pure formatting module of the
kavita-to-obsidian project (the current version of
`src/formatters/markdown.ts`), together with proofs about the properties
its specification claims.

Conventions of the embedding:

* JavaScript strings are Lean `String`s; all computation is done on their
  `data` (`List Char`) so that every definition reduces in the kernel.
* JavaScript numbers in this module are integers in every reachable use
  (entity ids, page numbers, sort orders), so they are embedded as `Int`.
* `Array#join`/`Array.prototype.sort`/`Array.groupBy` (from the effect
  library) and the enumeration order of plain-object records
  (`Record.toEntries` = `Object.entries`) are embedded below; in
  particular `Object.entries` enumerates canonical array-index keys in
  ascending numeric order first and all other string keys in insertion
  order, which the functions `jsGroupBy` and `toEntries` reproduce.
* `Array.prototype.sort` is required by ECMAScript to be stable; a stable
  sort's result is uniquely determined by the comparator and the input
  order, so it is embedded as `List.insertionSort`, which is stable.
* The non-deterministic timestamp `new Date().toISOString()` read by
  `generateFrontmatter` is isolated as an explicit `now : String`
  parameter.
* `String.prototype.toLowerCase` is embedded by its ASCII fragment
  (`jsToLower`); the characters on which the full Unicode mapping differs
  are removed by the `toSlug` filter step in all but exotic cases, and no
  property proved here depends on them.
-/

namespace Kavita

/-- The character class of the JavaScript regex `\s` (WhiteSpace and
LineTerminator code points), by code point. -/
def jsWs (c : Char) : Bool :=
  c.toNat = 32 || (9 ≤ c.toNat && c.toNat ≤ 13) || c.toNat = 0xA0 ||
  c.toNat = 0x1680 || (0x2000 ≤ c.toNat && c.toNat ≤ 0x200A) ||
  c.toNat = 0x2028 || c.toNat = 0x2029 || c.toNat = 0x202F ||
  c.toNat = 0x205F || c.toNat = 0x3000 || c.toNat = 0xFEFF

/-- ASCII fragment of `String.prototype.toLowerCase`. -/
def jsToLower (c : Char) : Char :=
  if 65 ≤ c.toNat && c.toNat ≤ 90 then Char.ofNat (c.toNat + 32) else c

/-- `String.prototype.trim`: strip `jsWs` characters from both ends. -/
def jsTrim (s : String) : String :=
  ⟨((s.data.dropWhile jsWs).reverse.dropWhile jsWs).reverse⟩

/-- `String.prototype.split("\n")` on the character list: split at every
newline, keeping empty segments (`splitNl [] = [[]]`, like JS
`"".split("\n") = [""]`). -/
def splitNl : List Char → List (List Char)
  | [] => [[]]
  | c :: cs =>
    if c = '\n' then [] :: splitNl cs
    else
      match splitNl cs with
      | [] => [[c]]
      | h :: t => (c :: h) :: t

/-- `Array.prototype.join(sep)` on character lists. -/
def joinSepData (sep : List Char) : List (List Char) → List Char
  | [] => []
  | [l] => l
  | l :: l' :: ls => l ++ sep ++ joinSepData sep (l' :: ls)

/-- `Array.prototype.join(sep)` for string arrays. -/
def sjoin (sep : String) (ls : List String) : String :=
  ⟨joinSepData sep.data (ls.map String.data)⟩

/-- The lines of a string, as strings. -/
def linesOfStr (s : String) : List String :=
  (splitNl s.data).map String.mk

/-- `p` is a prefix of `l` (Boolean). -/
def listStarts (p l : List Char) : Bool :=
  List.isPrefixOf p l

/-- `p` starts the string `s`. -/
def strStarts (p s : String) : Bool :=
  listStarts p.data s.data

/-- `l` contains `p` as a contiguous substring (Boolean). -/
def containsSub (p : List Char) : List Char → Bool
  | [] => p.isEmpty
  | c :: cs => listStarts p (c :: cs) || containsSub p cs

/-- The string `s` contains `p` as a substring. -/
def strContains (p s : String) : Bool :=
  containsSub p.data s.data

/-! ## The slug pipeline (`toSlug`) -/

/-- The characters kept by the regex replace
`.replace(/[^a-z0-9\s-]/g, "")`. -/
def keepChar (c : Char) : Bool :=
  (97 ≤ c.toNat && c.toNat ≤ 122) || (48 ≤ c.toNat && c.toNat ≤ 57) ||
  jsWs c || c = '-'

/-- The character class `[a-z0-9-]` of slug outputs. -/
def isSlugChar (c : Char) : Bool :=
  (97 ≤ c.toNat && c.toNat ≤ 122) || (48 ≤ c.toNat && c.toNat ≤ 57) || c = '-'

/-- `.replace(/\s+/g, "-")`: each maximal run of `jsWs` characters becomes
one hyphen.  The Boolean argument records whether the previous character
was part of a whitespace run. -/
def collapseWsAux : Bool → List Char → List Char
  | _, [] => []
  | inRun, c :: cs =>
    if jsWs c then
      if inRun then collapseWsAux true cs else '-' :: collapseWsAux true cs
    else c :: collapseWsAux false cs

/-- The hyphen-run replace (regex `-+`, replacement `-`): each maximal
run of hyphens becomes one hyphen. -/
def collapseDashAux : Bool → List Char → List Char
  | _, [] => []
  | inRun, c :: cs =>
    if c = '-' then
      if inRun then collapseDashAux true cs else '-' :: collapseDashAux true cs
    else c :: collapseDashAux false cs

/-- The `^-` half of the trim regex (`^-` or `-$`, global): drop one
leading hyphen. -/
def dropLeadHyphen : List Char → List Char
  | [] => []
  | c :: t => if c = '-' then t else c :: t

/-- `.replace(/^-|-$/g, "")`: drop one leading hyphen, then one trailing
hyphen of what remains (the two regex alternatives can each match at most
once). -/
def trimHyphens (l : List Char) : List Char :=
  (dropLeadHyphen (dropLeadHyphen l).reverse).reverse

/-- `toSlug` from `markdown.ts`: lowercase, strip characters outside
`[a-z0-9\s-]`, collapse whitespace runs to `-`, collapse `-` runs, trim
one leading/trailing hyphen. -/
def toSlug (s : String) : String :=
  ⟨trimHyphens (collapseDashAux false (collapseWsAux false
    ((s.data.map jsToLower).filter keepChar)))⟩

/-- No two adjacent hyphens anywhere in the list (the specification's
"no double hyphen" for slug outputs). -/
def noDD : List Char → Bool
  | [] => true
  | [_] => true
  | c :: d :: l => !((c = '-' : Bool) && (d = '-' : Bool)) && noDD (d :: l)

/-! ## Data model (`schemas.ts`, `markdown.ts`) -/

/-- `AnnotationDto` from `schemas.ts`, restricted to the fields the
formatting module reads (the remaining fields — xPath locators,
timestamps, owner and like data, color slot — are never consulted by
`markdown.ts` and are omitted from the embedding).  `Schema.NullOr`
string fields become `Option String`. -/
structure AnnotationDto where
  id : Int
  selectedText : Option String
  comment : Option String
  chapterTitle : Option String
  containsSpoiler : Bool
  pageNumber : Int
  seriesName : Option String
  libraryName : Option String
  chapterId : Int
  volumeId : Int
  seriesId : Int
  libraryId : Int
deriving DecidableEq, Repr

/-- `FormatOptions` from `markdown.ts`. -/
structure FormatOptions where
  includeComments : Bool
  includeSpoilers : Bool
  includeTags : Bool
  tagPrefix : String
  includeWikilinks : Bool
deriving DecidableEq, Repr

/-- `ChapterInfo` from `markdown.ts`. -/
structure ChapterInfo where
  chapterId : Int
  bookTitle : String
  sortOrder : Int
  authors : List String
  genres : List String
deriving DecidableEq, Repr

/-- `ChapterInfoMap`: a read-only lookup keyed by chapter id. -/
abbrev ChapterInfoMap := List (Int × ChapterInfo)

/-- A writer entry of `SeriesMetadataDto`. -/
structure PersonDto where
  name : String
deriving DecidableEq, Repr

/-- A genre entry of `SeriesMetadataDto`. -/
structure GenreTagDto where
  title : String
deriving DecidableEq, Repr

/-- `SeriesMetadataDto`, restricted to the fields the formatter could
read (the current `toMarkdown` threads it through but never reads it). -/
structure SeriesMetadataDto where
  writers : List PersonDto
  genres : List GenreTagDto
deriving DecidableEq, Repr

/-- `SeriesMetadataMap`: a read-only lookup keyed by series id. -/
abbrev SeriesMetadataMap := List (Int × SeriesMetadataDto)

/-! ## Field resolution -/

/-- `getSeriesName`: `annotation.seriesName ?? `Series ${seriesId}``.
`??` tests null/undefined only, so an empty-string name is returned
as-is. -/
def getSeriesName (a : AnnotationDto) : String :=
  a.seriesName.getD ("Series " ++ toString a.seriesId)

/-- `getChapterTitle`: `annotation.chapterTitle ?? `Chapter ${chapterId}``. -/
def getChapterTitle (a : AnnotationDto) : String :=
  a.chapterTitle.getD ("Chapter " ++ toString a.chapterId)

/-- `getLibraryName`: `annotation.libraryName ?? `Library ${libraryId}``. -/
def getLibraryName (a : AnnotationDto) : String :=
  a.libraryName.getD ("Library " ++ toString a.libraryId)

/-- `getBookTitle`: the chapter-info book title when mapped, else the
series display name. -/
def getBookTitle (a : AnnotationDto) (cm : Option ChapterInfoMap) : String :=
  match cm with
  | none => getSeriesName a
  | some m =>
    match List.lookup a.chapterId m with
    | some ci => ci.bookTitle
    | none => getSeriesName a

/-- `getBookAuthors`: the first annotation's chapter-info authors, `[]`
when the list is empty, the map absent, or the chapter unmapped. -/
def getBookAuthors (anns : List AnnotationDto) (cm : Option ChapterInfoMap) :
    List String :=
  match anns, cm with
  | [], _ => []
  | _, none => []
  | fa :: _, some m =>
    match List.lookup fa.chapterId m with
    | some ci => ci.authors
    | none => []

/-- `getBookGenres`: symmetric to `getBookAuthors`. -/
def getBookGenres (anns : List AnnotationDto) (cm : Option ChapterInfoMap) :
    List String :=
  match anns, cm with
  | [], _ => []
  | _, none => []
  | fa :: _, some m =>
    match List.lookup fa.chapterId m with
    | some ci => ci.genres
    | none => []

/-- `getBookSortOrder`: the first annotation's chapter-info sort order,
`0` when the list is empty, the map absent, or the chapter unmapped.
The `bookTitle` argument is unused, as in the source. -/
def getBookSortOrder (_bookTitle : String) (anns : List AnnotationDto)
    (cm : Option ChapterInfoMap) : Int :=
  match anns, cm with
  | [], _ => 0
  | _, none => 0
  | fa :: _, some m =>
    match List.lookup fa.chapterId m with
    | some ci => ci.sortOrder
    | none => 0

/-! ## Grouping (`Array.groupBy` into a plain object, `Record.toEntries`) -/

/-- One step of `Array.groupBy`: push `a` onto the group of key `k`,
creating the group at the end of the record when the key is new (JS
object property creation order). -/
def upsert {α : Type} (k : String) (a : α) :
    List (String × List α) → List (String × List α)
  | [] => [(k, [a])]
  | (k', g) :: rest =>
    if k' = k then (k', g ++ [a]) :: rest else (k', g) :: upsert k a rest

/-- `Array.groupBy(self, f)` from the effect library: a fold building a
plain object, embedded as an insertion-ordered association list. -/
def jsGroupBy {α : Type} (key : α → String) (l : List α) :
    List (String × List α) :=
  l.foldl (fun r a => upsert (key a) a r) []

/-- The distinct values of `ks` in order of first occurrence. -/
def firstSeenKeys (ks : List String) : List String :=
  ks.foldl (fun acc k => if k ∈ acc then acc else acc ++ [k]) []

/-- The numeric value of a digit string (`foldl` base 10). -/
def parseNat (l : List Char) : Nat :=
  l.foldl (fun n c => 10 * n + (c.toNat - 48)) 0

/-- No leading zero (except the single digit `0` itself). -/
def noLeadingZero : List Char → Bool
  | '0' :: _ :: _ => false
  | _ => true

/-- The string is a canonical ECMAScript array index: a non-empty digit
string with no leading zero whose value is below `2^32 - 1`. -/
def isArrayIndexKey (s : String) : Bool :=
  !s.data.isEmpty &&
  s.data.all (fun c => 48 ≤ c.toNat && c.toNat ≤ 57) &&
  noLeadingZero s.data &&
  parseNat s.data < 4294967295

/-- `Record.toEntries` = `Object.entries`: canonical array-index keys in
ascending numeric order first, then the remaining keys in insertion
order (ECMAScript `OrdinaryOwnPropertyKeys`). -/
def toEntries {β : Type} (r : List (String × β)) : List (String × β) :=
  List.insertionSort (fun x y => parseNat x.1.data ≤ parseNat y.1.data)
      (r.filter (fun e => isArrayIndexKey e.1)) ++
    r.filter (fun e => !isArrayIndexKey e.1)

/-- `groupBySeriesId` from `markdown.ts`. -/
def groupBySeriesId (l : List AnnotationDto) : List (String × List AnnotationDto) :=
  jsGroupBy (fun a => toString a.seriesId) l

/-- `groupByChapterId` from `markdown.ts`. -/
def groupByChapterId (l : List AnnotationDto) : List (String × List AnnotationDto) :=
  jsGroupBy (fun a => toString a.chapterId) l

/-- `groupByBookTitle` from `markdown.ts`. -/
def groupByBookTitle (l : List AnnotationDto) (cm : Option ChapterInfoMap) :
    List (String × List AnnotationDto) :=
  jsGroupBy (fun a => getBookTitle a cm) l

/-- `getSortedBookGroups`: the book-title record's entries, sorted by
`getBookSortOrder` ascending with the stable `Array.prototype.sort`
(embedded as the stable `List.insertionSort`). -/
def getSortedBookGroups (l : List AnnotationDto) (cm : Option ChapterInfoMap) :
    List (String × List AnnotationDto) :=
  List.insertionSort
    (fun x y => getBookSortOrder x.1 x.2 cm ≤ getBookSortOrder y.1 y.2 cm)
    (toEntries (groupByBookTitle l cm))

/-! ## Rendering -/

/-- `makeTag`: `` `#${prefix}${toSlug(value)}` ``. -/
def makeTag (value : String) (pre : String) : String :=
  "#" ++ pre ++ toSlug value

/-- `makeWikilink`: `` `[[${value}]]` ``. -/
def makeWikilink (value : String) : String :=
  "[[" ++ value ++ "]]"

/-- The truthiness-and-trim test on the comment field:
`annotation.comment && trim !== "" && trim !== "{}"` (the placeholder
string is the two characters `\x7b\x7d`). -/
def jsHasComment : Option String → Bool
  | none => false
  | some c => !(c = "" : Bool) && !(jsTrim c = "" : Bool) && !(jsTrim c = "\x7b\x7d" : Bool)

/-- The block quote built by `formatAnnotation`: split the content on
newlines, prefix every resulting line (blank ones included) with
`"> "`, and re-join with newline. -/
def blockquoteOf (content : String) : String :=
  sjoin "\n" ((splitNl content.data).map (fun ln => "> " ++ String.mk ln))

/-- The `lines` array built by `formatAnnotation` for an annotation that
passed the spoiler gate: the block quote, then the optional note pair,
then the optional page pair. -/
def formatAnnotationLines (a : AnnotationDto) (o : FormatOptions) : List String :=
  [blockquoteOf (a.selectedText.getD "")] ++
    (if o.includeComments && jsHasComment a.comment then
      ["", "*Note:* " ++ a.comment.getD ""] else []) ++
    (if 0 < a.pageNumber then
      ["", "<small>Page " ++ toString a.pageNumber ++ "</small>"] else [])

/-- `formatAnnotation` from `markdown.ts`: `none` when the annotation is
a spoiler and spoilers are excluded, otherwise the joined line block.
(`pageNumber` is a required schema field, so the source's
`!== undefined` test is always true in the embedding.) -/
def formatAnnotation (a : AnnotationDto) (o : FormatOptions) : Option String :=
  if a.containsSpoiler && !o.includeSpoilers then none
  else some (sjoin "\n" (formatAnnotationLines a o))

/-- `generateBookHeader` from `markdown.ts`. -/
def generateBookHeader (bookTitle : String) (o : FormatOptions)
    (authors : List String) (genres : List String) : List String :=
  ["### " ++ bookTitle] ++
    (if !authors.isEmpty then
      [if o.includeWikilinks then
        "**Author:** " ++ sjoin ", " (authors.map makeWikilink)
      else "**Author:** " ++ sjoin ", " authors] else []) ++
    (if o.includeWikilinks then ["**Book:** " ++ makeWikilink bookTitle] else []) ++
    (if !genres.isEmpty then ["**Genres:** " ++ sjoin ", " genres] else []) ++
    (if o.includeTags && !genres.isEmpty then
      ["**Tags:** " ++ sjoin " " (genres.map (fun g => makeTag g o.tagPrefix))]
    else [])

/-- `generateFrontmatter` from `markdown.ts` (current version), with the
`new Date().toISOString()` read isolated as the `now` parameter.  The
tags block holds the two fixed literals; `tagPrefix` is not consulted. -/
def generateFrontmatter (o : FormatOptions) (now : String) : String :=
  sjoin "\n" (["---", "title: Kavita Annotations"] ++
    (if o.includeTags then ["tags:", "  - annotations", "  - kavita"] else []) ++
    ["updated: " ++ now, "---"])

/-- `generateSeriesHeader` from `markdown.ts` (current version): the
metadata argument is accepted but unused, as in the source. -/
def generateSeriesHeader (firstAnn : AnnotationDto) (o : FormatOptions)
    (_metadata : Option SeriesMetadataDto) : List String :=
  ["## " ++ getSeriesName firstAnn] ++
    (if o.includeWikilinks then
      ["**Series:** " ++ makeWikilink (getSeriesName firstAnn)] else []) ++
    ["**Library:** " ++ getLibraryName firstAnn]

/-- `Number(s)` restricted to the canonical integer strings that occur as
record keys here (used only for the dead `metadataMap` lookup). -/
def jsNumberOfKey (s : String) : Option Int :=
  if !s.data.isEmpty && s.data.all (fun c => 48 ≤ c.toNat && c.toNat ≤ 57) then
    some (parseNat s.data)
  else none

/-- The flat block sequence the non-empty branch of `toMarkdown` emits
before the final newline join: frontmatter, blank, title, blank, then
per-series header/book/chapter/annotation blocks. -/
def toMarkdownPieces (anns : List AnnotationDto) (o : FormatOptions)
    (mm : Option SeriesMetadataMap) (cm : Option ChapterInfoMap)
    (now : String) : List String :=
  [generateFrontmatter o now, "", "# Kavita Annotations", ""] ++
    (toEntries (groupBySeriesId anns)).flatMap (fun se =>
      match se.2 with
      | [] => []
      | firstAnn :: _ =>
        generateSeriesHeader firstAnn o
            (mm.bind fun m =>
              (jsNumberOfKey se.1).bind fun n => List.lookup n m) ++ [""] ++
          (getSortedBookGroups se.2 cm).flatMap (fun bg =>
            generateBookHeader bg.1 o (getBookAuthors bg.2 cm)
                (getBookGenres bg.2 cm) ++ [""] ++
              (toEntries (groupByChapterId bg.2)).flatMap (fun cg =>
                ["#### Chapter: " ++
                    (match cg.2 with
                     | [] => "Unknown Chapter"
                     | fc :: _ => getChapterTitle fc), ""] ++
                  (cg.2.filterMap (fun a => formatAnnotation a o)).flatMap
                    (fun f => [f, "", "---", ""]))))

/-- `toMarkdown` from `markdown.ts` (current version), with the clock
isolated as `now`. -/
def toMarkdown (anns : List AnnotationDto) (o : FormatOptions)
    (mm : Option SeriesMetadataMap) (cm : Option ChapterInfoMap)
    (now : String) : String :=
  if anns.isEmpty then
    generateFrontmatter o now ++
      "\n\n# Kavita Annotations\n\n*No annotations found.*\n"
  else
    sjoin "\n" (toMarkdownPieces anns o mm cm now)

/-! ## Concrete fixtures (defaults of the repository's test helper
`createAnnotation` and its `defaultOptions`) -/

/-- A concrete annotation, with the repository test suite's defaults. -/
def sampleAnn : AnnotationDto :=
  { id := 1, selectedText := some "Test highlight", comment := none,
    chapterTitle := none, containsSpoiler := false, pageNumber := 1,
    seriesName := none, libraryName := none, chapterId := 1, volumeId := 1,
    seriesId := 1, libraryId := 1 }

/-- The repository test suite's default options. -/
def sampleOpts : FormatOptions :=
  { includeComments := true, includeSpoilers := false, includeTags := true,
    tagPrefix := "kavita/", includeWikilinks := true }

/-- First annotation of series 1 (grouping scenario). -/
def annS1a : AnnotationDto :=
  { sampleAnn with
    id := 1, seriesId := 1, seriesName := some "S1", selectedText := some "A1" }

/-- Second annotation of series 1 (grouping scenario). -/
def annS1b : AnnotationDto :=
  { sampleAnn with
    id := 2, seriesId := 1, seriesName := some "S1", selectedText := some "A2" }

/-- Annotation of series 2 (grouping scenario). -/
def annS2 : AnnotationDto :=
  { sampleAnn with
    id := 3, seriesId := 2, seriesName := some "S2", selectedText := some "A3" }

/-- Annotation in chapter 1 (book-sort scenarios). -/
def annCh1 : AnnotationDto := { sampleAnn with id := 1, chapterId := 1 }

/-- Annotation in chapter 2 (book-sort scenarios). -/
def annCh2 : AnnotationDto := { sampleAnn with id := 2, chapterId := 2 }

/-- Chapter map of the specification's sort-order scenario: chapter 1 is
book "B" with sort order 5, chapter 2 is book "A" with sort order 1. -/
def cmBooksBA : ChapterInfoMap :=
  [(1, ⟨1, "B", 5, [], []⟩), (2, ⟨2, "A", 1, [], []⟩)]

/-- Chapter map with canonical-integer book titles and equal sort
orders: chapter 1 is book "2", chapter 2 is book "1", both order 0. -/
def cmBooksNum : ChapterInfoMap :=
  [(1, ⟨1, "2", 0, [], []⟩), (2, ⟨2, "1", 0, [], []⟩)]

/-- An annotation whose series name is the empty-state placeholder
text, used to show that user-supplied names can inject that text into a
non-empty document. -/
def annInject : AnnotationDto :=
  { sampleAnn with seriesName := some "*No annotations found.*" }

/-! ## Lemmas: characters -/

/-- Characters are equal when their code points are. -/
theorem char_eq_of_toNat {c d : Char} (h : c.toNat = d.toNat) : c = d := by
  have h' := congrArg Char.ofNat h
  rwa [Char.ofNat_toNat, Char.ofNat_toNat] at h'

/-- Numeric characterization of slug characters. -/
theorem slug_char_numeric {c : Char} (hs : isSlugChar c = true) :
    (97 ≤ c.toNat ∧ c.toNat ≤ 122) ∨ (48 ≤ c.toNat ∧ c.toNat ≤ 57) ∨
      c.toNat = 45 := by
  simp only [isSlugChar, Bool.or_eq_true, Bool.and_eq_true, decide_eq_true_eq] at hs
  rcases hs with (⟨h1, h2⟩ | ⟨h1, h2⟩) | rfl
  · exact Or.inl ⟨h1, h2⟩
  · exact Or.inr (Or.inl ⟨h1, h2⟩)
  · exact Or.inr (Or.inr (by decide))

/-- Converse numeric characterization of slug characters. -/
theorem slug_char_of_numeric {c : Char}
    (h : (97 ≤ c.toNat ∧ c.toNat ≤ 122) ∨ (48 ≤ c.toNat ∧ c.toNat ≤ 57) ∨
      c.toNat = 45) : isSlugChar c = true := by
  simp only [isSlugChar, Bool.or_eq_true, Bool.and_eq_true, decide_eq_true_eq]
  rcases h with ⟨h1, h2⟩ | ⟨h1, h2⟩ | h45
  · exact Or.inl (Or.inl ⟨h1, h2⟩)
  · exact Or.inl (Or.inr ⟨h1, h2⟩)
  · exact Or.inr (char_eq_of_toNat (by simpa using h45))

/-- A kept character that is not whitespace is a slug character. -/
theorem keep_not_ws_slug {c : Char} (hk : keepChar c = true) (hw : jsWs c = false) :
    isSlugChar c = true := by
  simp only [keepChar, Bool.or_eq_true, Bool.and_eq_true, decide_eq_true_eq] at hk
  rcases hk with ((⟨h1, h2⟩ | ⟨h1, h2⟩) | h) | h
  · exact slug_char_of_numeric (Or.inl ⟨h1, h2⟩)
  · exact slug_char_of_numeric (Or.inr (Or.inl ⟨h1, h2⟩))
  · rw [hw] at h; exact Bool.noConfusion h
  · exact slug_char_of_numeric (Or.inr (Or.inr (by rw [h]; decide)))

/-- Slug characters are not whitespace. -/
theorem slug_not_ws {c : Char} (hs : isSlugChar c = true) : jsWs c = false := by
  have hn := slug_char_numeric hs
  rw [Bool.eq_false_iff]
  intro h
  simp only [jsWs, Bool.or_eq_true, Bool.and_eq_true, decide_eq_true_eq] at h
  omega

/-- Slug characters are fixed by the ASCII lowercase map. -/
theorem jsToLower_slug {c : Char} (hs : isSlugChar c = true) : jsToLower c = c := by
  have hn := slug_char_numeric hs
  simp only [jsToLower]
  rw [if_neg]
  simp only [Bool.and_eq_true, decide_eq_true_eq]
  omega

/-- Slug characters pass the keep filter. -/
theorem keep_of_slug {c : Char} (hs : isSlugChar c = true) : keepChar c = true := by
  have hn := slug_char_numeric hs
  simp only [keepChar, Bool.or_eq_true, Bool.and_eq_true, decide_eq_true_eq]
  rcases hn with ⟨h1, h2⟩ | ⟨h1, h2⟩ | h45
  · exact Or.inl (Or.inl (Or.inl ⟨h1, h2⟩))
  · exact Or.inl (Or.inl (Or.inr ⟨h1, h2⟩))
  · exact Or.inr (char_eq_of_toNat (by simpa using h45))

/-! ## Lemmas: the slug pipeline -/

/-- Every character the whitespace-collapse emits is a hyphen or a
non-whitespace input character. -/
theorem collapseWsAux_mem {l : List Char} :
    ∀ {b : Bool} {c : Char}, c ∈ collapseWsAux b l →
      c = '-' ∨ (c ∈ l ∧ jsWs c = false) := by
  induction l with
  | nil => intro b c h; simp [collapseWsAux] at h
  | cons d ds ih =>
    intro b c h
    cases hw : jsWs d with
    | true =>
      cases b with
      | true =>
        simp only [collapseWsAux, hw, if_pos] at h
        rcases ih h with h' | ⟨hm, hns⟩
        · exact Or.inl h'
        · exact Or.inr ⟨List.mem_cons_of_mem _ hm, hns⟩
      | false =>
        simp only [collapseWsAux, hw, if_pos] at h
        rcases List.mem_cons.mp h with rfl | h'
        · exact Or.inl rfl
        · rcases ih h' with h'' | ⟨hm, hns⟩
          · exact Or.inl h''
          · exact Or.inr ⟨List.mem_cons_of_mem _ hm, hns⟩
    | false =>
      simp only [collapseWsAux, hw, Bool.false_eq_true, if_false] at h
      rcases List.mem_cons.mp h with rfl | h'
      · exact Or.inr ⟨List.mem_cons_self _ _, hw⟩
      · rcases ih h' with h'' | ⟨hm, hns⟩
        · exact Or.inl h''
        · exact Or.inr ⟨List.mem_cons_of_mem _ hm, hns⟩

/-- After lowercasing, filtering and whitespace collapsing, every
character is a slug character. -/
theorem collapseWsAux_slug {l : List Char} (hl : ∀ c ∈ l, keepChar c = true) :
    ∀ {b : Bool} {c : Char}, c ∈ collapseWsAux b l → isSlugChar c = true := by
  intro b c h
  rcases collapseWsAux_mem h with rfl | ⟨hm, hns⟩
  · decide
  · exact keep_not_ws_slug (hl c hm) hns

/-- The dash collapse only keeps input characters. -/
theorem collapseDashAux_mem {l : List Char} :
    ∀ {b : Bool} {c : Char}, c ∈ collapseDashAux b l → c ∈ l := by
  induction l with
  | nil => intro b c h; simp [collapseDashAux] at h
  | cons d ds ih =>
    intro b c h
    by_cases hd : d = '-'
    · subst hd
      cases b with
      | true =>
        simp only [collapseDashAux, if_pos rfl] at h
        exact List.mem_cons_of_mem _ (ih h)
      | false =>
        simp only [collapseDashAux, if_pos rfl] at h
        rcases List.mem_cons.mp h with rfl | h'
        · exact List.mem_cons_self _ _
        · exact List.mem_cons_of_mem _ (ih h')
    · simp only [collapseDashAux, if_neg hd] at h
      rcases List.mem_cons.mp h with rfl | h'
      · exact List.mem_cons_self _ _
      · exact List.mem_cons_of_mem _ (ih h')

/-- `noDD` on a cons, as an iff. -/
theorem noDD_cons {c : Char} {l : List Char} :
    noDD (c :: l) = true ↔ ((l.head? = some '-' → c ≠ '-') ∧ noDD l = true) := by
  cases l with
  | nil => simp [noDD]
  | cons d ds =>
    simp only [noDD, Bool.and_eq_true, Bool.not_eq_true', Bool.and_eq_false_iff,
      decide_eq_false_iff_not, List.head?_cons]
    constructor
    · rintro ⟨h1, h2⟩
      refine ⟨fun hd hc => ?_, h2⟩
      have hd' : d = '-' := by injection hd
      rcases h1 with h | h
      · exact h hc
      · exact h hd'
    · rintro ⟨h1, h2⟩
      refine ⟨?_, h2⟩
      by_cases hc : c = '-'
      · exact Or.inr fun hd => h1 (by rw [hd]) hc
      · exact Or.inl hc

/-- The dash collapse produces no double hyphen, and in the in-run state
its output never starts with a hyphen. -/
theorem collapseDashAux_noDD (l : List Char) :
    noDD (collapseDashAux true l) = true ∧
    noDD (collapseDashAux false l) = true ∧
    (collapseDashAux true l).head? ≠ some '-' := by
  induction l with
  | nil => refine ⟨by decide, by decide, by simp [collapseDashAux]⟩
  | cons d ds ih =>
    obtain ⟨ih1, ih2, ih3⟩ := ih
    by_cases hd : d = '-'
    · subst hd
      refine ⟨?_, ?_, ?_⟩
      · simpa only [collapseDashAux, if_pos rfl] using ih1
      · simp only [collapseDashAux, if_pos rfl]
        exact noDD_cons.mpr ⟨fun h => absurd h ih3, ih1⟩
      · simpa only [collapseDashAux, if_pos rfl] using ih3
    · refine ⟨?_, ?_, ?_⟩
      · simp only [collapseDashAux, if_neg hd]
        refine noDD_cons.mpr ⟨fun _ => hd, ih2⟩
      · simp only [collapseDashAux, if_neg hd]
        refine noDD_cons.mpr ⟨fun _ => hd, ih2⟩
      · simp only [collapseDashAux, if_neg hd, List.head?_cons]
        intro h
        exact hd (by injection h)

/-- `noDD` is the adjacency chain of "not both hyphens". -/
theorem noDD_iff_chain {l : List Char} :
    noDD l = true ↔ List.Chain' (fun a b => ¬(a = '-' ∧ b = '-')) l := by
  induction l with
  | nil => simp [noDD]
  | cons c t ih =>
    cases t with
    | nil => simp [noDD]
    | cons d ds =>
      rw [List.chain'_cons]
      simp only [noDD, Bool.and_eq_true, Bool.not_eq_true', Bool.and_eq_false_iff,
        decide_eq_false_iff_not] at *
      constructor
      · rintro ⟨h1, h2⟩
        exact ⟨fun ⟨hc, hdd⟩ => h1.elim (fun h => h hc) (fun h => h hdd), ih.mp h2⟩
      · rintro ⟨h1, h2⟩
        refine ⟨?_, ih.mpr h2⟩
        by_cases hc : c = '-'
        · exact Or.inr (fun hdd => h1 ⟨hc, hdd⟩)
        · exact Or.inl hc

/-- `noDD` is reversal-invariant. -/
theorem noDD_reverse {l : List Char} : noDD l.reverse = noDD l := by
  have key : List.Chain' (fun a b : Char => ¬(a = '-' ∧ b = '-')) l.reverse ↔
      List.Chain' (fun a b : Char => ¬(a = '-' ∧ b = '-')) l := by
    rw [List.chain'_reverse]
    constructor
    · intro h
      exact h.imp fun a b hab hba => hab ⟨hba.2, hba.1⟩
    · intro h
      exact h.imp fun a b hab hba => hab ⟨hba.2, hba.1⟩
  cases hb : noDD l with
  | true => exact noDD_iff_chain.mpr (key.mpr (noDD_iff_chain.mp hb))
  | false =>
    rw [Bool.eq_false_iff]
    intro hr
    have hcontra := noDD_iff_chain.mpr (key.mp (noDD_iff_chain.mp hr))
    rw [hb] at hcontra
    exact Bool.noConfusion hcontra

/-- `dropLeadHyphen` keeps only input characters. -/
theorem dropLeadHyphen_mem {l : List Char} {c : Char}
    (h : c ∈ dropLeadHyphen l) : c ∈ l := by
  cases l with
  | nil => simpa [dropLeadHyphen] using h
  | cons d t =>
    by_cases hd : d = '-'
    · simp only [dropLeadHyphen, if_pos hd] at h
      exact List.mem_cons_of_mem _ h
    · simpa only [dropLeadHyphen, if_neg hd] using h

/-- `dropLeadHyphen` preserves `noDD`. -/
theorem dropLeadHyphen_noDD {l : List Char} (h : noDD l = true) :
    noDD (dropLeadHyphen l) = true := by
  cases l with
  | nil => simpa [dropLeadHyphen] using h
  | cons d t =>
    by_cases hd : d = '-'
    · simp only [dropLeadHyphen, if_pos hd]
      exact (noDD_cons.mp h).2
    · simpa only [dropLeadHyphen, if_neg hd] using h

/-- After `dropLeadHyphen`, a `noDD` list does not start with a hyphen. -/
theorem dropLeadHyphen_head {l : List Char} (h : noDD l = true) :
    (dropLeadHyphen l).head? ≠ some '-' := by
  cases l with
  | nil => simp [dropLeadHyphen]
  | cons d t =>
    by_cases hd : d = '-'
    · subst hd
      simp only [dropLeadHyphen, if_pos rfl]
      intro hh
      have h1 := (noDD_cons.mp h).1
      exact h1 hh rfl
    · simp only [dropLeadHyphen, if_neg hd, List.head?_cons]
      intro hh
      exact hd (by injection hh)

/-- `dropLeadHyphen` preserves the last element or empties the list. -/
theorem dropLeadHyphen_getLast? {l : List Char} :
    (dropLeadHyphen l).getLast? = l.getLast? ∨ dropLeadHyphen l = [] := by
  cases l with
  | nil => exact Or.inr rfl
  | cons d t =>
    by_cases hd : d = '-'
    · simp only [dropLeadHyphen, if_pos hd]
      cases t with
      | nil => exact Or.inr rfl
      | cons e ts =>
        rw [List.getLast?_cons_cons]
        exact Or.inl rfl
    · simp [dropLeadHyphen, if_neg hd]

/-- `dropLeadHyphen` is the identity when the head is not a hyphen. -/
theorem dropLeadHyphen_id {l : List Char} (h : l.head? ≠ some '-') :
    dropLeadHyphen l = l := by
  cases l with
  | nil => rfl
  | cons d t =>
    have hd : d ≠ '-' := fun hc => h (by simp [hc])
    simp [dropLeadHyphen, if_neg hd]

/-- Mapping a pointwise-fixing function is the identity. -/
theorem map_id_of_fixed {f : Char → Char} {l : List Char}
    (h : ∀ c ∈ l, f c = c) : l.map f = l := by
  induction l with
  | nil => rfl
  | cons c cs ih =>
    rw [List.map_cons, h c (List.mem_cons_self _ _),
      ih fun x hx => h x (List.mem_cons_of_mem _ hx)]

/-- Whitespace collapsing is the identity on whitespace-free lists. -/
theorem collapseWsAux_id {l : List Char} (h : ∀ c ∈ l, jsWs c = false) :
    ∀ b, collapseWsAux b l = l := by
  induction l with
  | nil => intro b; rfl
  | cons d ds ih =>
    intro b
    have hd := h d (List.mem_cons_self _ _)
    simp only [collapseWsAux, hd, Bool.false_eq_true, if_false]
    rw [ih fun x hx => h x (List.mem_cons_of_mem _ hx)]

/-- Dash collapsing is the identity on `noDD` lists (and in the in-run
state when additionally the head is not a hyphen). -/
theorem collapseDashAux_id {l : List Char} (h : noDD l = true) :
    collapseDashAux false l = l ∧
    (l.head? ≠ some '-' → collapseDashAux true l = l) := by
  induction l with
  | nil => exact ⟨rfl, fun _ => rfl⟩
  | cons d ds ih =>
    obtain ⟨hhead, htail⟩ := noDD_cons.mp h
    obtain ⟨ih1, ih2⟩ := ih htail
    by_cases hd : d = '-'
    · subst hd
      have hds : ds.head? ≠ some '-' := fun hh => hhead hh rfl
      constructor
      · have hstep : collapseDashAux false ('-' :: ds) =
            '-' :: collapseDashAux true ds := by
          simp [collapseDashAux]
        rw [hstep, ih2 hds]
      · intro hcontra
        exact absurd (show ('-' :: ds).head? = some '-' from rfl) hcontra
    · have hstep : ∀ b, collapseDashAux b (d :: ds) =
          d :: collapseDashAux false ds := by
        intro b
        simp [collapseDashAux, hd]
      constructor
      · rw [hstep, ih1]
      · intro _
        rw [hstep, ih1]

/-- `trimHyphens` keeps only input characters. -/
theorem trimHyphens_mem {l : List Char} {c : Char}
    (h : c ∈ trimHyphens l) : c ∈ l := by
  simp only [trimHyphens, List.mem_reverse] at h
  have h1 := dropLeadHyphen_mem h
  rw [List.mem_reverse] at h1
  exact dropLeadHyphen_mem h1

/-- `trimHyphens` preserves `noDD`. -/
theorem trimHyphens_noDD {l : List Char} (h : noDD l = true) :
    noDD (trimHyphens l) = true := by
  simp only [trimHyphens, noDD_reverse]
  exact dropLeadHyphen_noDD (by rw [noDD_reverse]; exact dropLeadHyphen_noDD h)

/-- `trimHyphens` of a `noDD` list does not start with a hyphen. -/
theorem trimHyphens_head {l : List Char} (h : noDD l = true) :
    (trimHyphens l).head? ≠ some '-' := by
  simp only [trimHyphens]
  rw [List.head?_reverse]
  rcases @dropLeadHyphen_getLast? (dropLeadHyphen l).reverse with heq | hnil
  · rw [heq, List.getLast?_reverse]
    exact dropLeadHyphen_head h
  · rw [hnil]
    simp

/-- `trimHyphens` of a `noDD` list does not end with a hyphen. -/
theorem trimHyphens_last {l : List Char} (h : noDD l = true) :
    (trimHyphens l).getLast? ≠ some '-' := by
  simp only [trimHyphens]
  rw [List.getLast?_reverse]
  exact dropLeadHyphen_head (by rw [noDD_reverse]; exact dropLeadHyphen_noDD h)

/-- `trimHyphens` is the identity when neither end is a hyphen. -/
theorem trimHyphens_id {l : List Char} (hh : l.head? ≠ some '-')
    (hl : l.getLast? ≠ some '-') : trimHyphens l = l := by
  simp only [trimHyphens]
  rw [dropLeadHyphen_id hh, dropLeadHyphen_id (by rwa [List.head?_reverse]),
    List.reverse_reverse]

/-- The output of `toSlug` has only slug characters, no double hyphen,
and hyphen-free ends. -/
theorem toSlug_data_inv (s : String) :
    (∀ c ∈ (toSlug s).data, isSlugChar c = true) ∧
    noDD (toSlug s).data = true ∧
    (toSlug s).data.head? ≠ some '-' ∧
    (toSlug s).data.getLast? ≠ some '-' := by
  have hkeep : ∀ c ∈ (s.data.map jsToLower).filter keepChar, keepChar c = true :=
    fun c hc => List.of_mem_filter hc
  have hslug2 : ∀ c ∈ collapseDashAux false
      (collapseWsAux false ((s.data.map jsToLower).filter keepChar)),
      isSlugChar c = true :=
    fun c hc => collapseWsAux_slug hkeep (collapseDashAux_mem hc)
  have hnodd2 : noDD (collapseDashAux false
      (collapseWsAux false ((s.data.map jsToLower).filter keepChar))) = true :=
    (collapseDashAux_noDD _).2.1
  exact ⟨fun c hc => hslug2 c (trimHyphens_mem hc), trimHyphens_noDD hnodd2,
    trimHyphens_head hnodd2, trimHyphens_last hnodd2⟩

/-- `toSlug` is the identity on strings already in slug form. -/
theorem toSlug_fixed {l : List Char} (hslug : ∀ c ∈ l, isSlugChar c = true)
    (hnodd : noDD l = true) (hh : l.head? ≠ some '-')
    (hl : l.getLast? ≠ some '-') : toSlug ⟨l⟩ = ⟨l⟩ := by
  have step1 : l.map jsToLower = l :=
    map_id_of_fixed fun c hc => jsToLower_slug (hslug c hc)
  have step2 : l.filter keepChar = l :=
    List.filter_eq_self.mpr fun c hc => keep_of_slug (hslug c hc)
  have step3 : collapseWsAux false l = l :=
    collapseWsAux_id (fun c hc => slug_not_ws (hslug c hc)) false
  have step4 : collapseDashAux false l = l := (collapseDashAux_id hnodd).1
  have step5 : trimHyphens l = l := trimHyphens_id hh hl
  show (⟨trimHyphens (collapseDashAux false (collapseWsAux false
    (((String.mk l).data.map jsToLower).filter keepChar)))⟩ : String) = ⟨l⟩
  rw [show (String.mk l).data = l from rfl, step1, step2, step3, step4, step5]

/-- C3: for every string `s`, `toSlug` is idempotent and its output uses
only `[a-z0-9-]`, has no leading or trailing hyphen, and no two
consecutive hyphens.  Totality is inherent: `toSlug` is a total Lean
function defined on every `String`. -/
theorem toSlug_idempotent_charset (s : String) :
    toSlug (toSlug s) = toSlug s ∧
    (∀ c ∈ (toSlug s).data, isSlugChar c = true) ∧
    (toSlug s).data.head? ≠ some '-' ∧
    (toSlug s).data.getLast? ≠ some '-' ∧
    noDD (toSlug s).data = true := by
  obtain ⟨h1, h2, h3, h4⟩ := toSlug_data_inv s
  exact ⟨toSlug_fixed h1 h2 h3 h4, h1, h3, h4, h2⟩

/-- Witness for C3 at a concrete input. -/
theorem toSlug_idempotent_charset_witness :
    toSlug (toSlug "  Fiction & Literature -- Classics!  ") =
      toSlug "  Fiction & Literature -- Classics!  " :=
  (toSlug_idempotent_charset "  Fiction & Literature -- Classics!  ").1

/-! ## Lemmas: splitting and joining lines -/

/-- `splitNl` never returns the empty list. -/
theorem splitNl_ne_nil (l : List Char) : splitNl l ≠ [] := by
  cases l with
  | nil => simp [splitNl]
  | cons c cs =>
    by_cases hc : c = '\n'
    · simp [splitNl, hc]
    · simp only [splitNl, if_neg hc]
      cases splitNl cs <;> simp

/-- No produced line contains a newline. -/
theorem splitNl_no_nl {l : List Char} : ∀ ln ∈ splitNl l, '\n' ∉ ln := by
  induction l with
  | nil =>
    intro ln h
    simp [splitNl] at h
    simp [h]
  | cons c cs ih =>
    intro ln h
    by_cases hc : c = '\n'
    · simp only [splitNl, if_pos hc] at h
      rcases List.mem_cons.mp h with rfl | h'
      · simp
      · exact ih ln h'
    · simp only [splitNl, if_neg hc] at h
      cases hs : splitNl cs with
      | nil => exact absurd hs (splitNl_ne_nil cs)
      | cons h₀ t =>
        rw [hs] at h
        rcases List.mem_cons.mp h with rfl | h'
        · intro hmem
          rcases List.mem_cons.mp hmem with rfl | h''
          · exact hc rfl
          · exact ih h₀ (by rw [hs]; exact List.mem_cons_self _ _) h''
        · exact ih ln (by rw [hs]; exact List.mem_cons_of_mem _ h')

/-- A newline-free list is one line. -/
theorem splitNl_of_no_nl {l : List Char} (h : '\n' ∉ l) : splitNl l = [l] := by
  induction l with
  | nil => rfl
  | cons c cs ih =>
    have hc : c ≠ '\n' := fun hcc => h (by simp [hcc])
    have hcs : '\n' ∉ cs := fun hmem => h (List.mem_cons_of_mem _ hmem)
    simp only [splitNl, if_neg hc, ih hcs]

/-- `splitNl` on a leading newline. -/
theorem splitNl_cons_nl (cs : List Char) :
    splitNl ('\n' :: cs) = [] :: splitNl cs := by
  simp [splitNl]

/-- `splitNl` on a leading non-newline character. -/
theorem splitNl_cons_ne {c : Char} (hc : c ≠ '\n') {cs : List Char}
    {h : List Char} {t : List (List Char)} (hs : splitNl cs = h :: t) :
    splitNl (c :: cs) = (c :: h) :: t := by
  simp only [splitNl, if_neg hc, hs]

/-- Splitting distributes over a concatenation with an explicit
separator. -/
theorem splitNl_append (a b : List Char) :
    splitNl (a ++ '\n' :: b) = splitNl a ++ splitNl b := by
  induction a with
  | nil =>
    rw [List.nil_append, splitNl_cons_nl]
    rfl
  | cons c cs ih =>
    by_cases hc : c = '\n'
    · subst hc
      rw [List.cons_append, splitNl_cons_nl, ih, splitNl_cons_nl]
      rfl
    · obtain ⟨h₀, t, hs⟩ : ∃ h₀ t, splitNl cs = h₀ :: t := by
        cases hcs : splitNl cs with
        | nil => exact absurd hcs (splitNl_ne_nil cs)
        | cons x y => exact ⟨x, y, rfl⟩
      have h2 : splitNl (cs ++ '\n' :: b) = h₀ :: (t ++ splitNl b) := by
        rw [ih, hs]
        rfl
      rw [List.cons_append, splitNl_cons_ne hc h2, splitNl_cons_ne hc hs]
      rfl

/-- Splitting a newline-join recovers the per-piece splits. -/
theorem splitNl_join {ds : List (List Char)} (h : ds ≠ []) :
    splitNl (joinSepData ['\n'] ds) = ds.flatMap splitNl := by
  induction ds with
  | nil => exact absurd rfl h
  | cons d t ih =>
    cases t with
    | nil => simp [joinSepData]
    | cons e ts =>
      have hstep : joinSepData ['\n'] (d :: e :: ts) =
          d ++ '\n' :: joinSepData ['\n'] (e :: ts) := by
        simp [joinSepData]
      rw [hstep, splitNl_append, ih (by simp)]
      simp

/-- Flat-mapping `splitNl` over newline-free pieces is the identity. -/
theorem flatMap_splitNl_of_no_nl {ds : List (List Char)}
    (h : ∀ d ∈ ds, '\n' ∉ d) : ds.flatMap splitNl = ds := by
  induction ds with
  | nil => rfl
  | cons d t ih =>
    rw [List.flatMap_cons, splitNl_of_no_nl (h d (List.mem_cons_self _ _)),
      ih fun x hx => h x (List.mem_cons_of_mem _ hx)]
    rfl

/-- The lines of a join of newline-free strings are those strings. -/
theorem linesOfStr_sjoin {ls : List String} (h : ls ≠ [])
    (hnl : ∀ s ∈ ls, '\n' ∉ s.data) : linesOfStr (sjoin "\n" ls) = ls := by
  have hmap : (ls.map String.data) ≠ [] := by
    cases ls with
    | nil => exact absurd rfl h
    | cons x t => simp
  have hdata : (sjoin "\n" ls).data = joinSepData ['\n'] (ls.map String.data) := rfl
  have hd : ∀ d ∈ ls.map String.data, '\n' ∉ d := by
    intro d hdm
    obtain ⟨s, hs, rfl⟩ := List.mem_map.mp hdm
    exact hnl s hs
  rw [linesOfStr, hdata, splitNl_join hmap, flatMap_splitNl_of_no_nl hd,
    List.map_map, show (String.mk ∘ String.data) = id from funext fun s => rfl,
    List.map_id]

/-! ## C7: display-name fallbacks -/

/-- C7 counterexample: with `seriesName = some ""` (non-null but empty)
and `seriesId = 5`, `getSeriesName` returns `""`, not the ID fallback
`"Series 5"` the claim requires for empty names (the source uses the
nullish `??`, which does not treat the empty string as absent). -/
theorem getSeriesName_empty_not_fallback :
    getSeriesName { sampleAnn with seriesName := some "", seriesId := 5 } = "" ∧
    getSeriesName { sampleAnn with seriesName := some "", seriesId := 5 } ≠
      "Series 5" := by
  exact ⟨rfl, by decide⟩

/-- C7 (amended): each display-name accessor returns the name field
whenever the field is non-null — including when it is the empty string —
and produces the ID-based fallback exactly when the field is null. -/
theorem displayName_fallback (a : AnnotationDto) :
    (∀ s, a.seriesName = some s → getSeriesName a = s) ∧
    (a.seriesName = none → getSeriesName a = "Series " ++ toString a.seriesId) ∧
    (∀ s, a.chapterTitle = some s → getChapterTitle a = s) ∧
    (a.chapterTitle = none →
      getChapterTitle a = "Chapter " ++ toString a.chapterId) ∧
    (∀ s, a.libraryName = some s → getLibraryName a = s) ∧
    (a.libraryName = none →
      getLibraryName a = "Library " ++ toString a.libraryId) := by
  refine ⟨fun s h => ?_, fun h => ?_, fun s h => ?_, fun h => ?_,
    fun s h => ?_, fun h => ?_⟩ <;>
    simp [getSeriesName, getChapterTitle, getLibraryName, h]

/-- Witness for C7 (amended) at concrete annotations. -/
theorem displayName_fallback_witness :
    getSeriesName { sampleAnn with seriesName := some "The Great Gatsby" } =
      "The Great Gatsby" ∧
    getSeriesName { sampleAnn with seriesName := none, seriesId := 123 } =
      "Series 123" :=
  ⟨(displayName_fallback _).1 _ rfl, (displayName_fallback _).2.1 rfl⟩

/-! ## C8: frontmatter -/

/-- C8 counterexample: the frontmatter is independent of the configured
tag prefix — with `tagPrefix = "genre/"` the tags block still holds
exactly the fixed literals `annotations` and `kavita` and no trace of
the prefix, refuting the claim's "trailing slash trimmed from the
configured tag prefix for the first" clause. -/
theorem frontmatter_prefix_counterexample :
    generateFrontmatter { sampleOpts with tagPrefix := "genre/" } "T" =
      generateFrontmatter { sampleOpts with tagPrefix := "other" } "T" ∧
    generateFrontmatter { sampleOpts with tagPrefix := "genre/" } "T" =
      "---\ntitle: Kavita Annotations\ntags:\n  - annotations\n  - kavita\nupdated: T\n---" ∧
    strContains "genre" (generateFrontmatter { sampleOpts with tagPrefix := "genre/" } "T") =
      false := by
  refine ⟨rfl, by decide, by decide⟩

/-- C8 (amended): for every options value the frontmatter's lines are
the opening delimiter, the fixed title line, a tags block present iff
`includeTags` holding exactly the two fixed literal tags `annotations`
and `kavita` (the tag prefix plays no role), the `updated:` line carrying
the supplied clock value, and the closing delimiter. -/
theorem generateFrontmatter_lines (o : FormatOptions) (now : String)
    (hnow : '\n' ∉ now.data) :
    linesOfStr (generateFrontmatter o now) =
      ["---", "title: Kavita Annotations"] ++
      (if o.includeTags then ["tags:", "  - annotations", "  - kavita"] else []) ++
      ["updated: " ++ now, "---"] := by
  have hupd : '\n' ∉ ("updated: " ++ now).data := by
    rw [String.data_append]
    intro hmem
    rcases List.mem_append.mp hmem with h | h
    · exact absurd h (by decide)
    · exact hnow h
  apply linesOfStr_sjoin
  · cases o.includeTags <;> simp
  · intro s hs
    rcases List.mem_append.mp hs with h1 | h2
    · rcases List.mem_append.mp h1 with h3 | h4
      · simp only [List.mem_cons, List.not_mem_nil, or_false] at h3
        rcases h3 with rfl | rfl
        · decide
        · decide
      · cases hti : o.includeTags
        · rw [hti] at h4
          simp at h4
        · rw [hti] at h4
          simp only [if_true, List.mem_cons, List.not_mem_nil, or_false] at h4
          rcases h4 with rfl | rfl | rfl <;> decide
    · simp only [List.mem_cons, List.not_mem_nil, or_false] at h2
      rcases h2 with rfl | rfl
      · exact hupd
      · decide

/-- Witness for C8 (amended) at a concrete options/clock value. -/
theorem generateFrontmatter_lines_witness :
    linesOfStr (generateFrontmatter sampleOpts "2025-01-01T00:00:00.000Z") =
      ["---", "title: Kavita Annotations", "tags:", "  - annotations",
        "  - kavita", "updated: 2025-01-01T00:00:00.000Z", "---"] := by
  have h := generateFrontmatter_lines sampleOpts "2025-01-01T00:00:00.000Z"
    (by decide)
  simpa [sampleOpts] using h

/-! ## Lemmas: string prefixes and the rendered block -/

/-- Every list starts with itself. -/
theorem listStarts_append (p t : List Char) : listStarts p (p ++ t) = true := by
  induction p with
  | nil => cases t <;> rfl
  | cons a as ih => simpa [listStarts, List.isPrefixOf] using ih

/-- A prefix with a different head never matches. -/
theorem listStarts_ne_head {p l : List Char} {a b : Char} (hab : a ≠ b) :
    listStarts (a :: p) (b :: l) = false := by
  simp [listStarts, List.isPrefixOf, hab]

/-- The head of a joined non-empty list of strings. -/
theorem sjoin_data_cons (sep : String) (x : String) (rest : List String) :
    ∃ t, (sjoin sep (x :: rest)).data = x.data ++ t := by
  cases rest with
  | nil => exact ⟨[], by simp [sjoin, joinSepData]⟩
  | cons y t =>
    refine ⟨sep.data ++ joinSepData sep.data ((y :: t).map String.data), ?_⟩
    simp [sjoin, joinSepData]

/-- The rendered block quote always starts with `"> "`. -/
theorem blockquoteOf_data (content : String) :
    ∃ rest, (blockquoteOf content).data = '>' :: ' ' :: rest := by
  obtain ⟨l₀, t, hs⟩ : ∃ l₀ t, splitNl content.data = l₀ :: t := by
    cases hcs : splitNl content.data with
    | nil => exact absurd hcs (splitNl_ne_nil _)
    | cons x y => exact ⟨x, y, rfl⟩
  rw [blockquoteOf, hs, List.map_cons]
  obtain ⟨t', ht'⟩ := sjoin_data_cons "\n" ("> " ++ String.mk l₀)
    (t.map fun ln => "> " ++ String.mk ln)
  refine ⟨l₀ ++ t', ?_⟩
  rw [ht', String.data_append]
  rfl

/-- The note-line prefix does not match the block quote. -/
theorem note_not_bq (content : String) :
    strStarts "*Note:* " (blockquoteOf content) = false := by
  obtain ⟨rest, hdata⟩ := blockquoteOf_data content
  rw [strStarts, hdata, show ("*Note:* " : String).data = '*' :: "Note:* ".data from rfl]
  exact listStarts_ne_head (by decide)

/-- The note-line prefix does not match the page line. -/
theorem note_not_page (y z : String) :
    strStarts "*Note:* " ("<small>Page " ++ y ++ z) = false := by
  rw [strStarts, String.data_append, String.data_append,
    show ("*Note:* " : String).data = '*' :: "Note:* ".data from rfl,
    show ("<small>Page " : String).data = '<' :: "small>Page ".data from rfl,
    List.cons_append, List.cons_append]
  exact listStarts_ne_head (by decide)

/-- The note-line prefix matches exactly the note line. -/
theorem note_starts_note (c : String) :
    strStarts "*Note:* " ("*Note:* " ++ c) = true := by
  rw [strStarts, String.data_append]
  exact listStarts_append _ _

/-- The comment test, in the specification's terms: non-null and, after
trimming, neither empty nor the `\x7b\x7d` placeholder (the source's
extra truthiness test on the untrimmed comment is subsumed, since an
empty comment trims to the empty string). -/
theorem jsHasComment_iff {oc : Option String} :
    jsHasComment oc = true ↔
      ∃ c, oc = some c ∧ jsTrim c ≠ "" ∧ jsTrim c ≠ "\x7b\x7d" := by
  cases oc with
  | none => simp [jsHasComment]
  | some c =>
    simp only [jsHasComment, Bool.and_eq_true, Bool.not_eq_true',
      decide_eq_false_iff_not]
    constructor
    · rintro ⟨⟨h1, h2⟩, h3⟩
      exact ⟨c, rfl, h2, h3⟩
    · rintro ⟨c', hc', h2, h3⟩
      have hcc : c = c' := by injection hc'
      subst hcc
      refine ⟨⟨?_, h2⟩, h3⟩
      intro hceq
      subst hceq
      exact h2 (by decide)

/-! ## C5: the `*Note:*` line -/

/-- C5: a rendered annotation's line list carries a `*Note:*` line
exactly when `includeComments` is set and the comment is non-null and,
after trimming, neither empty nor the literal placeholder; and when it
appears, it carries the comment verbatim (untrimmed). -/
theorem noteLine_iff (a : AnnotationDto) (o : FormatOptions) :
    ((formatAnnotationLines a o).any (fun ln => strStarts "*Note:* " ln) = true ↔
      (o.includeComments = true ∧ ∃ c, a.comment = some c ∧
        jsTrim c ≠ "" ∧ jsTrim c ≠ "\x7b\x7d")) ∧
    (∀ c, a.comment = some c → o.includeComments = true →
      jsTrim c ≠ "" → jsTrim c ≠ "\x7b\x7d" →
      ("*Note:* " ++ c) ∈ formatAnnotationLines a o) := by
  constructor
  · constructor
    · intro hany
      obtain ⟨x, hx, hpx⟩ := List.any_eq_true.mp hany
      rw [ formatAnnotationLines] at hx
      rcases List.mem_append.mp hx with h1 | hP
      · rcases List.mem_append.mp h1 with hbq | hN
        · simp only [List.mem_cons, List.not_mem_nil, or_false] at hbq
          subst hbq
          rw [note_not_bq] at hpx
          exact Bool.noConfusion hpx
        · cases hcmt : (o.includeComments && jsHasComment a.comment)
          · rw [hcmt] at hN
            simp at hN
          · simp only [Bool.and_eq_true] at hcmt
            exact ⟨hcmt.1, jsHasComment_iff.mp hcmt.2⟩
      · by_cases hpg : 0 < a.pageNumber
        · rw [if_pos hpg] at hP
          simp only [List.mem_cons, List.not_mem_nil, or_false] at hP
          rcases hP with rfl | rfl
          · exact Bool.noConfusion hpx
          · rw [note_not_page] at hpx
            exact Bool.noConfusion hpx
        · rw [if_neg hpg] at hP
          simp at hP
    · rintro ⟨hic, c, hc, h2, h3⟩
      have hcmt : (o.includeComments && jsHasComment a.comment) = true := by
        rw [hic, Bool.true_and]
        exact jsHasComment_iff.mpr ⟨c, hc, h2, h3⟩
      apply List.any_eq_true.mpr
      refine ⟨"*Note:* " ++ a.comment.getD "", ?_, ?_⟩
      · rw [ formatAnnotationLines, hcmt]
        simp
      · exact note_starts_note _
  · intro c hc hic h2 h3
    have hcmt : (o.includeComments && jsHasComment a.comment) = true := by
      rw [hic, Bool.true_and]
      exact jsHasComment_iff.mpr ⟨c, hc, h2, h3⟩
    rw [ formatAnnotationLines, hcmt, hc]
    simp

/-- Witness for C5 at concrete inputs: a real comment produces the note
line; the comment values `none`, `""`, `"  "` and the placeholder do
not, even with `includeComments` set. -/
theorem noteLine_iff_witness :
    ("*Note:* great" ∈
      formatAnnotationLines { sampleAnn with comment := some "great" } sampleOpts) ∧
    ((formatAnnotationLines sampleAnn sampleOpts).any
      (fun ln => strStarts "*Note:* " ln) = false) ∧
    ((formatAnnotationLines { sampleAnn with comment := some "" } sampleOpts).any
      (fun ln => strStarts "*Note:* " ln) = false) ∧
    ((formatAnnotationLines { sampleAnn with comment := some "  " } sampleOpts).any
      (fun ln => strStarts "*Note:* " ln) = false) ∧
    ((formatAnnotationLines { sampleAnn with comment := some "\x7b\x7d" } sampleOpts).any
      (fun ln => strStarts "*Note:* " ln) = false) := by
  refine ⟨?_, by decide, by decide, by decide, by decide⟩
  exact (noteLine_iff { sampleAnn with comment := some "great" } sampleOpts).2
    "great" rfl rfl (by decide) (by decide)

/-! ## C6: multi-paragraph block quotes -/

/-- C6: splitting the rendered block quote on newlines yields exactly
the lines of the highlighted text, each prefixed with `"> "` (blank
lines included); a rendered annotation's first block is the block quote
of its highlighted text; and the highlighted text
`"First.\n\nSecond."` renders as the three lines
`> First.` / `> ` / `> Second.`. -/
theorem multiline_blockquote (s : String) (a : AnnotationDto) (o : FormatOptions) :
    splitNl (blockquoteOf s).data =
      (splitNl s.data).map (fun ln => '>' :: ' ' :: ln) ∧
    (formatAnnotationLines a o).head? =
      some (blockquoteOf (a.selectedText.getD "")) ∧
    formatAnnotation
        { sampleAnn with
          selectedText := some "First.\n\nSecond.",
          pageNumber := 0 } sampleOpts =
      some "> First.\n> \n> Second." := by
  refine ⟨?_, rfl, by decide⟩
  have hne : (splitNl s.data).map (fun ln => "> " ++ String.mk ln) ≠ [] := by
    cases hcs : splitNl s.data with
    | nil => exact absurd hcs (splitNl_ne_nil _)
    | cons x y => simp
  have hmapne : ((splitNl s.data).map (fun ln => "> " ++ String.mk ln)).map
      String.data ≠ [] := by
    cases hcs : splitNl s.data with
    | nil => exact absurd hcs (splitNl_ne_nil _)
    | cons x y => simp
  have hdata : (blockquoteOf s).data = joinSepData ['\n']
      (((splitNl s.data).map (fun ln => "> " ++ String.mk ln)).map String.data) := rfl
  have hpiece : ∀ ln : List Char, ("> " ++ String.mk ln).data = '>' :: ' ' :: ln := by
    intro ln
    rw [String.data_append]
    rfl
  have hnonl : ∀ d ∈ ((splitNl s.data).map (fun ln => "> " ++ String.mk ln)).map
      String.data, '\n' ∉ d := by
    intro d hd
    rw [List.map_map] at hd
    obtain ⟨ln, hln, rfl⟩ := List.mem_map.mp hd
    show '\n' ∉ (("> " ++ String.mk ln).data)
    rw [hpiece]
    intro hmem
    rcases List.mem_cons.mp hmem with h | h
    · exact absurd h (by decide)
    · rcases List.mem_cons.mp h with h' | h'
      · exact absurd h' (by decide)
      · exact splitNl_no_nl ln hln h'
  rw [hdata, splitNl_join hmapne, flatMap_splitNl_of_no_nl hnonl, List.map_map]
  apply List.map_congr_left
  intro ln _
  exact hpiece ln

/-! ## Lemmas: grouping and record enumeration -/

/-- Membership under the `firstSeenKeys` fold. -/
theorem mem_firstSeenKeys_aux (ks : List String) :
    ∀ (acc : List String) (x : String),
      x ∈ ks.foldl (fun acc k => if k ∈ acc then acc else acc ++ [k]) acc ↔
        x ∈ acc ∨ x ∈ ks := by
  induction ks with
  | nil => intro acc x; simp
  | cons k t ih =>
    intro acc x
    rw [List.foldl_cons]
    by_cases hk : k ∈ acc
    · rw [if_pos hk, ih]
      constructor
      · rintro (h | h)
        · exact Or.inl h
        · exact Or.inr (List.mem_cons_of_mem _ h)
      · rintro (h | h)
        · exact Or.inl h
        · rcases List.mem_cons.mp h with rfl | h'
          · exact Or.inl hk
          · exact Or.inr h'
    · rw [if_neg hk, ih]
      simp only [List.mem_append, List.mem_cons, List.mem_singleton]
      tauto

/-- A key appears among the first-seen keys iff it appears in the input. -/
theorem mem_firstSeenKeys {ks : List String} {x : String} :
    x ∈ firstSeenKeys ks ↔ x ∈ ks := by
  rw [firstSeenKeys, mem_firstSeenKeys_aux]
  simp

/-- The `firstSeenKeys` fold preserves distinctness. -/
theorem nodup_firstSeenKeys_aux (ks : List String) :
    ∀ acc : List String, acc.Nodup →
      (ks.foldl (fun acc k => if k ∈ acc then acc else acc ++ [k]) acc).Nodup := by
  induction ks with
  | nil => intro acc h; exact h
  | cons k t ih =>
    intro acc h
    rw [List.foldl_cons]
    by_cases hk : k ∈ acc
    · rw [if_pos hk]; exact ih acc h
    · rw [if_neg hk]
      refine ih _ (List.Nodup.append h (List.nodup_singleton k) ?_)
      intro x hx hxk
      rw [List.mem_singleton] at hxk
      exact hk (hxk ▸ hx)

/-- `firstSeenKeys` has no duplicates. -/
theorem nodup_firstSeenKeys (ks : List String) : (firstSeenKeys ks).Nodup :=
  nodup_firstSeenKeys_aux ks [] List.nodup_nil

/-- `firstSeenKeys` over a snoc. -/
theorem firstSeenKeys_snoc (ks : List String) (k : String) :
    firstSeenKeys (ks ++ [k]) =
      if k ∈ firstSeenKeys ks then firstSeenKeys ks
      else firstSeenKeys ks ++ [k] := by
  rw [firstSeenKeys, List.foldl_append]
  rfl

/-- `jsGroupBy` over a snoc. -/
theorem jsGroupBy_snoc {α : Type} (key : α → String) (l : List α) (a : α) :
    jsGroupBy key (l ++ [a]) = upsert (key a) a (jsGroupBy key l) := by
  rw [jsGroupBy, List.foldl_append]
  rfl

/-- `upsert` with a fresh key appends a new singleton group. -/
theorem upsert_not_mem {α : Type} (k : String) (a : α)
    (r : List (String × List α)) (h : ∀ e ∈ r, e.1 ≠ k) :
    upsert k a r = r ++ [(k, [a])] := by
  induction r with
  | nil => rfl
  | cons e t ih =>
    obtain ⟨k', g⟩ := e
    have hk' : k' ≠ k := h (k', g) (List.mem_cons_self _ _)
    simp only [upsert, if_neg hk', List.cons_append]
    rw [ih fun e he => h e (List.mem_cons_of_mem _ he)]

/-- Filtering a snoc. -/
theorem filter_snoc {α : Type} (p : α → Bool) (l : List α) (a : α) :
    (l ++ [a]).filter p = l.filter p ++ if p a then [a] else [] := by
  rw [List.filter_append]
  congr 1
  by_cases h : p a <;> simp [h]

/-- `upsert` into the canonical grouped form when the key already has a
group: the new element is pushed onto that group and nothing else
changes. -/
theorem upsert_map_mem {α : Type} (key : α → String) (l : List α) (a : α)
    (ks : List String) (hnd : ks.Nodup) (hmem : key a ∈ ks) :
    upsert (key a) a (ks.map fun k => (k, l.filter fun x => key x == k)) =
      ks.map fun k => (k, (l ++ [a]).filter fun x => key x == k) := by
  induction ks with
  | nil => simp at hmem
  | cons k₀ t ih =>
    obtain ⟨hk₀t, hndt⟩ := List.nodup_cons.mp hnd
    rcases List.mem_cons.mp hmem with heq | hmem'
    · simp only [List.map_cons, upsert, if_pos heq.symm]
      congr 1
      · rw [filter_snoc, if_pos (by rw [beq_iff_eq]; exact heq)]
      · apply List.map_congr_left
        intro k hk
        have hne : (key a == k) = false := by
          rw [beq_eq_false_iff_ne]
          intro hcontra
          exact hk₀t (by rw [← heq, hcontra]; exact hk)
        rw [filter_snoc, hne, if_neg (by simp), List.append_nil]
    · have hne : k₀ ≠ key a := fun h => hk₀t (h ▸ hmem')
      simp only [List.map_cons, upsert, if_neg hne]
      congr 1
      · have hfa : (key a == k₀) = false := by
          rw [beq_eq_false_iff_ne]
          exact fun h => hne h.symm
        rw [filter_snoc, hfa, if_neg (by simp), List.append_nil]
      · exact ih hndt hmem'

/-- `upsert` into the canonical grouped form with a fresh key: all
groups are unchanged and a new singleton group is appended. -/
theorem upsert_map_not_mem {α : Type} (key : α → String) (l : List α) (a : α)
    (ks : List String) (hmem : key a ∉ ks) (hl : key a ∉ l.map key) :
    upsert (key a) a (ks.map fun k => (k, l.filter fun x => key x == k)) =
      (ks ++ [key a]).map fun k => (k, (l ++ [a]).filter fun x => key x == k) := by
  have hl' : l.filter (fun x => key x == key a) = [] := by
    rw [List.filter_eq_nil_iff]
    intro x hx hcontra
    rw [beq_iff_eq] at hcontra
    exact hl (List.mem_map.mpr ⟨x, hx, hcontra⟩)
  rw [List.map_append, List.map_singleton]
  rw [upsert_not_mem]
  · congr 1
    · apply List.map_congr_left
      intro k hk
      have hne : (key a == k) = false := by
        rw [beq_eq_false_iff_ne]
        exact fun h => hmem (h ▸ hk)
      rw [filter_snoc, hne, if_neg (by simp), List.append_nil]
    · rw [filter_snoc, hl', List.nil_append,
        if_pos (show (key a == key a) = true by rw [beq_iff_eq])]
  · intro e he
    obtain ⟨k, hk, rfl⟩ := List.mem_map.mp he
    exact fun h => hmem (h ▸ hk)

/-- Characterization of `jsGroupBy`: one group per distinct key in
first-seen key order, each group holding the input elements with that
key in input order. -/
theorem jsGroupBy_eq {α : Type} (key : α → String) (l : List α) :
    jsGroupBy key l = (firstSeenKeys (l.map key)).map
      (fun k => (k, l.filter fun x => key x == k)) := by
  induction l using List.reverseRecOn with
  | nil => rfl
  | append_singleton l a ih =>
    rw [jsGroupBy_snoc, ih, List.map_append, List.map_singleton,
      firstSeenKeys_snoc]
    by_cases hmem : key a ∈ firstSeenKeys (l.map key)
    · rw [if_pos hmem]
      exact upsert_map_mem key l a _ (nodup_firstSeenKeys _) hmem
    · rw [if_neg hmem]
      exact upsert_map_not_mem key l a _ hmem
        (fun h => hmem (mem_firstSeenKeys.mpr h))

/-- `toEntries` is a permutation of the record: same entries. -/
theorem mem_toEntries {β : Type} {r : List (String × β)} {e : String × β} :
    e ∈ toEntries r ↔ e ∈ r := by
  rw [toEntries, List.mem_append]
  constructor
  · rintro (h | h)
    · exact List.mem_of_mem_filter ((List.perm_insertionSort _ _).mem_iff.mp h)
    · exact List.mem_of_mem_filter h
  · intro h
    by_cases hidx : isArrayIndexKey e.1
    · exact Or.inl ((List.perm_insertionSort _ _).mem_iff.mpr
        (List.mem_filter.mpr ⟨h, hidx⟩))
    · exact Or.inr (List.mem_filter.mpr ⟨h, by simp [hidx]⟩)

/-! ## Lemmas: the stable sort -/

/-- Inserting into a list places the element before every element of
equal key, so filtering by a key value commutes with insertion. -/
theorem filter_orderedInsert {α γ : Type} [LinearOrder γ] (f : α → γ)
    (v : γ) (x : α) (L : List α) :
    (List.orderedInsert (fun a b => f a ≤ f b) x L).filter
        (fun e => decide (f e = v)) =
      if f x = v then x :: L.filter (fun e => decide (f e = v))
      else L.filter (fun e => decide (f e = v)) := by
  induction L with
  | nil => by_cases h : f x = v <;> simp [List.orderedInsert, h]
  | cons y ys ih =>
    by_cases hr : f x ≤ f y
    · rw [List.orderedInsert, if_pos hr]
      by_cases hv : f x = v <;> simp [List.filter_cons, hv]
    · rw [List.orderedInsert, if_neg hr]
      have hlt : f y < f x := lt_of_not_le hr
      by_cases hv : f x = v
      · have hyv : ¬(f y = v) := fun h =>
          absurd hlt (by rw [h, hv]; exact lt_irrefl v)
        simp [List.filter_cons, hyv, ih, hv]
      · simp [List.filter_cons, ih, hv]

/-- Stability of the insertion sort, phrased through filters: the
elements of any fixed key value keep their relative input order. -/
theorem insertionSort_filter_key {α γ : Type} [LinearOrder γ] (f : α → γ)
    (v : γ) (l : List α) :
    (List.insertionSort (fun a b => f a ≤ f b) l).filter
        (fun e => decide (f e = v)) =
      l.filter (fun e => decide (f e = v)) := by
  induction l with
  | nil => rfl
  | cons x xs ih =>
    rw [List.insertionSort, filter_orderedInsert f v x _, ih]
    by_cases hv : f x = v <;> simp [List.filter_cons, hv]

/-- The insertion sort sorts by the key. -/
theorem insertionSort_sorted_key {α γ : Type} [LinearOrder γ] (f : α → γ)
    (l : List α) :
    List.Sorted (fun a b => f a ≤ f b)
      (List.insertionSort (fun a b => f a ≤ f b) l) := by
  haveI : IsTotal α (fun a b => f a ≤ f b) := ⟨fun a b => le_total (f a) (f b)⟩
  haveI : IsTrans α (fun a b => f a ≤ f b) :=
    ⟨fun a b c hab hbc => le_trans hab hbc⟩
  exact List.sorted_insertionSort _ _

/-! ## C1: grouping order -/

/-- C1 counterexample: for series ids seen in the order `[2, 1]`, the
pipeline's enumeration of the series groups (`Record.toEntries` of the
grouped plain object) yields the keys in ascending numeric order
`["1", "2"]`, not the first-seen order `["2", "1"]` the claim
requires. -/
theorem seriesGroups_counterexample :
    (toEntries (groupBySeriesId [annS2, annS1a])).map Prod.fst = ["1", "2"] ∧
    firstSeenKeys ([annS2, annS1a].map fun x => toString x.seriesId) =
      ["2", "1"] ∧
    ¬((toEntries (groupBySeriesId [annS2, annS1a])).map Prod.fst =
      ["2", "1"]) := by
  decide

set_option maxRecDepth 40000 in
/-- C1 (amended): grouping produces one group per distinct key in
first-seen key order with each group's elements in first-seen input
order; the pipeline's enumeration of the grouped record keeps every
group's contents intact but orders the keys as `Object.entries` does —
canonical array-index keys (all numeric series/chapter ids) first in
ascending numeric order, then the remaining keys in first-seen order.
In particular, for series ids `[1, 1, 2]` the document has exactly the
two series headers `S1` then `S2`, each followed only by that series'
own annotations. -/
theorem grouping_order (key : AnnotationDto → String) (l : List AnnotationDto) :
    jsGroupBy key l = (firstSeenKeys (l.map key)).map
      (fun k => (k, l.filter fun x => key x == k)) ∧
    (∀ e ∈ toEntries (jsGroupBy key l),
      e.2 = l.filter fun x => key x == e.1) ∧
    List.Perm
      (((toEntries (jsGroupBy key l)).map Prod.fst).filter isArrayIndexKey)
      ((firstSeenKeys (l.map key)).filter isArrayIndexKey) ∧
    List.Sorted (fun k₁ k₂ => parseNat k₁.data ≤ parseNat k₂.data)
      (((toEntries (jsGroupBy key l)).map Prod.fst).filter isArrayIndexKey) ∧
    ((toEntries (jsGroupBy key l)).map Prod.fst).filter
        (fun k => !isArrayIndexKey k) =
      (firstSeenKeys (l.map key)).filter (fun k => !isArrayIndexKey k) ∧
    (linesOfStr (toMarkdown [annS1a, annS1b, annS2] sampleOpts none none
        "T")).filter (fun ln => strStarts "## " ln) = ["## S1", "## S2"] ∧
    toMarkdown [annS1a, annS1b, annS2] sampleOpts none none "T" =
      "---\ntitle: Kavita Annotations\ntags:\n  - annotations\n  - kavita\nupdated: T\n---\n\n# Kavita Annotations\n\n## S1\n**Series:** [[S1]]\n**Library:** Library 1\n\n### S1\n**Book:** [[S1]]\n\n#### Chapter: Chapter 1\n\n> A1\n\n<small>Page 1</small>\n\n---\n\n> A2\n\n<small>Page 1</small>\n\n---\n\n## S2\n**Series:** [[S2]]\n**Library:** Library 1\n\n### S2\n**Book:** [[S2]]\n\n#### Chapter: Chapter 1\n\n> A3\n\n<small>Page 1</small>\n\n---\n" := by
  have ha := jsGroupBy_eq key l
  have hkeys : (jsGroupBy key l).map Prod.fst = firstSeenKeys (l.map key) := by
    rw [ha, List.map_map]
    exact List.map_id _
  have hSmem : ∀ e ∈ List.insertionSort
      (fun x y => parseNat x.1.data ≤ parseNat y.1.data)
      ((jsGroupBy key l).filter (fun e => isArrayIndexKey e.1)),
      isArrayIndexKey e.1 = true := by
    intro e he
    have h1 : e ∈ (jsGroupBy key l).filter (fun e => isArrayIndexKey e.1) :=
      (List.perm_insertionSort _ _).mem_iff.mp he
    exact (List.mem_filter.mp h1).2
  have hBmem : ∀ e ∈ (jsGroupBy key l).filter (fun e => !isArrayIndexKey e.1),
      isArrayIndexKey e.1 = false := by
    intro e he
    have := List.of_mem_filter he
    simpa using this
  have hsplit : (toEntries (jsGroupBy key l)).map Prod.fst =
      (List.insertionSort (fun x y => parseNat x.1.data ≤ parseNat y.1.data)
        ((jsGroupBy key l).filter (fun e => isArrayIndexKey e.1))).map Prod.fst ++
      ((jsGroupBy key l).filter (fun e => !isArrayIndexKey e.1)).map Prod.fst := by
    rw [toEntries, List.map_append]
  have hfiltS : ((List.insertionSort
      (fun x y => parseNat x.1.data ≤ parseNat y.1.data)
      ((jsGroupBy key l).filter (fun e => isArrayIndexKey e.1))).map
        Prod.fst).filter isArrayIndexKey =
      (List.insertionSort (fun x y => parseNat x.1.data ≤ parseNat y.1.data)
        ((jsGroupBy key l).filter (fun e => isArrayIndexKey e.1))).map Prod.fst := by
    apply List.filter_eq_self.mpr
    intro k hk
    obtain ⟨e, he, rfl⟩ := List.mem_map.mp hk
    exact hSmem e he
  have hfiltB : (((jsGroupBy key l).filter
      (fun e => !isArrayIndexKey e.1)).map Prod.fst).filter isArrayIndexKey =
      [] := by
    rw [List.filter_eq_nil_iff]
    intro k hk
    obtain ⟨e, he, rfl⟩ := List.mem_map.mp hk
    simp [hBmem e he]
  have hfiltS' : ((List.insertionSort
      (fun x y => parseNat x.1.data ≤ parseNat y.1.data)
      ((jsGroupBy key l).filter (fun e => isArrayIndexKey e.1))).map
        Prod.fst).filter (fun k => !isArrayIndexKey k) = [] := by
    rw [List.filter_eq_nil_iff]
    intro k hk
    obtain ⟨e, he, rfl⟩ := List.mem_map.mp hk
    simp [hSmem e he]
  have hfiltB' : (((jsGroupBy key l).filter
      (fun e => !isArrayIndexKey e.1)).map Prod.fst).filter
        (fun k => !isArrayIndexKey k) =
      ((jsGroupBy key l).filter (fun e => !isArrayIndexKey e.1)).map
        Prod.fst := by
    apply List.filter_eq_self.mpr
    intro k hk
    obtain ⟨e, he, rfl⟩ := List.mem_map.mp hk
    simp [hBmem e he]
  refine ⟨ha, ?_, ?_, ?_, ?_, by decide, by decide⟩
  · intro e he
    have he' := mem_toEntries.mp he
    rw [ha] at he'
    obtain ⟨k, _, heq⟩ := List.mem_map.mp he'
    cases heq
    rfl
  · rw [hsplit, List.filter_append, hfiltS, hfiltB, List.append_nil]
    have hperm : List.Perm ((List.insertionSort
        (fun x y => parseNat x.1.data ≤ parseNat y.1.data)
        ((jsGroupBy key l).filter (fun e => isArrayIndexKey e.1))).map Prod.fst)
        (((jsGroupBy key l).filter (fun e => isArrayIndexKey e.1)).map
          Prod.fst) := (List.perm_insertionSort _ _).map _
    have heq : ((jsGroupBy key l).filter (fun e => isArrayIndexKey e.1)).map
        Prod.fst = (firstSeenKeys (l.map key)).filter isArrayIndexKey := by
      rw [← hkeys, List.filter_map, show (isArrayIndexKey ∘ Prod.fst :
        String × List AnnotationDto → Bool) =
        (fun e => isArrayIndexKey e.1) from rfl]
    exact heq ▸ hperm
  · rw [hsplit, List.filter_append, hfiltS, hfiltB, List.append_nil]
    have hsorted := insertionSort_sorted_key (fun e : String × List AnnotationDto
      => parseNat e.1.data)
      ((jsGroupBy key l).filter (fun e => isArrayIndexKey e.1))
    exact List.Pairwise.map Prod.fst (fun a b hab => hab) hsorted
  · rw [hsplit, List.filter_append, hfiltS', hfiltB', List.nil_append]
    calc ((jsGroupBy key l).filter (fun e => !isArrayIndexKey e.1)).map Prod.fst
        = ((jsGroupBy key l).map Prod.fst).filter (fun k => !isArrayIndexKey k)
          := by
            rw [List.filter_map, show ((fun k => !isArrayIndexKey k) ∘ Prod.fst :
              String × List AnnotationDto → Bool) =
              (fun e => !isArrayIndexKey e.1) from rfl]
      _ = (firstSeenKeys (l.map key)).filter (fun k => !isArrayIndexKey k) := by
          rw [hkeys]

/-- Witness for C1 (amended): the series-1 group of the grouping
scenario holds exactly the two series-1 annotations, in input order. -/
theorem grouping_order_witness :
    ("1", [annS1a, annS1b]).2 = [annS1a, annS1b, annS2].filter
      (fun x => (fun a : AnnotationDto => toString a.seriesId) x ==
        ("1", [annS1a, annS1b]).1) :=
  (grouping_order (fun a => toString a.seriesId) [annS1a, annS1b, annS2]).2.1
    ("1", [annS1a, annS1b]) (by decide)

/-! ## C2: book-group ordering -/

/-- C2 counterexample: two book groups with canonical-integer titles
`"2"` then `"1"` (first seen in that order) and equal sort order `0`
come out as `["1", "2"]` — the record enumeration reorders integer-like
keys before the stable sort ever runs, so equal sort orders do not keep
first-seen order. -/
theorem bookGroups_counterexample :
    (groupByBookTitle [annCh1, annCh2] (some cmBooksNum)).map Prod.fst =
      ["2", "1"] ∧
    getBookSortOrder "2" [annCh1] (some cmBooksNum) =
      getBookSortOrder "1" [annCh2] (some cmBooksNum) ∧
    (getSortedBookGroups [annCh1, annCh2] (some cmBooksNum)).map Prod.fst =
      ["1", "2"] ∧
    ¬((getSortedBookGroups [annCh1, annCh2] (some cmBooksNum)).map Prod.fst =
      ["2", "1"]) := by
  decide

/-- C2 (amended): within a series the book groups are ordered by
`getBookSortOrder` ascending with a stable sort, ties keeping their
order in the enumerated grouping record (which lists canonical-integer
book titles first in ascending numeric order, then the other titles in
first-seen order); the specification's concrete scenario (orders 5/1,
titles "B"/"A") comes out `A` before `B` for either input order. -/
theorem bookGroups_sorted (l : List AnnotationDto) (cm : Option ChapterInfoMap) :
    List.Sorted
      (fun x y => getBookSortOrder x.1 x.2 cm ≤ getBookSortOrder y.1 y.2 cm)
      (getSortedBookGroups l cm) ∧
    List.Perm (getSortedBookGroups l cm) (toEntries (groupByBookTitle l cm)) ∧
    (∀ v : Int, (getSortedBookGroups l cm).filter
        (fun e : String × List AnnotationDto =>
          decide (getBookSortOrder e.1 e.2 cm = v)) =
      (toEntries (groupByBookTitle l cm)).filter
        (fun e : String × List AnnotationDto =>
          decide (getBookSortOrder e.1 e.2 cm = v))) ∧
    (getSortedBookGroups [annCh1, annCh2] (some cmBooksBA)).map Prod.fst =
      ["A", "B"] ∧
    (getSortedBookGroups [annCh2, annCh1] (some cmBooksBA)).map Prod.fst =
      ["A", "B"] := by
  refine ⟨?_, ?_, ?_, by decide, by decide⟩
  · exact insertionSort_sorted_key
      (fun e : String × List AnnotationDto => getBookSortOrder e.1 e.2 cm) _
  · exact List.perm_insertionSort _ _
  · intro v
    exact insertionSort_filter_key
      (fun e : String × List AnnotationDto => getBookSortOrder e.1 e.2 cm) v _

/-! ## C9: the empty-input document -/

/-- A string that does not begin with `#` does not begin with `##`. -/
theorem strStarts_hash_false {s : String} (h : s.data.head? ≠ some '#') :
    strStarts "##" s = false := by
  cases hd : s.data with
  | nil => rw [strStarts, hd]; rfl
  | cons c cs =>
    have hc : c ≠ '#' := fun hcc => h (by rw [hd, hcc]; rfl)
    rw [strStarts, hd, show ("##" : String).data = '#' :: "#".data from rfl]
    exact listStarts_ne_head fun he => hc he.symm

/-- The lines of the empty-input document: the frontmatter's lines, then
the fixed title and placeholder block. -/
theorem toMarkdown_nil_lines (o : FormatOptions)
    (mm : Option SeriesMetadataMap) (cm : Option ChapterInfoMap)
    (now : String) :
    linesOfStr (toMarkdown [] o mm cm now) =
      linesOfStr (generateFrontmatter o now) ++
      ["", "# Kavita Annotations", "", "*No annotations found.*", ""] := by
  have hdoc : toMarkdown [] o mm cm now = generateFrontmatter o now ++
      "\n\n# Kavita Annotations\n\n*No annotations found.*\n" := rfl
  rw [hdoc, linesOfStr, String.data_append,
    show ("\n\n# Kavita Annotations\n\n*No annotations found.*\n" : String).data =
      '\n' :: ("\n# Kavita Annotations\n\n*No annotations found.*\n" : String).data
      from rfl,
    splitNl_append, List.map_append]
  congr 1

/-- C9: for every options value and maps, the empty-list document
carries the literal placeholder line `*No annotations found.*` and no
line beginning with `##` (assuming only that the clock string has no
newline, as an ISO-8601 timestamp never does). -/
theorem empty_doc (o : FormatOptions) (mm : Option SeriesMetadataMap)
    (cm : Option ChapterInfoMap) (now : String) (hnow : '\n' ∉ now.data) :
    "*No annotations found.*" ∈ linesOfStr (toMarkdown [] o mm cm now) ∧
    ∀ ln ∈ linesOfStr (toMarkdown [] o mm cm now),
      strStarts "##" ln = false := by
  rw [toMarkdown_nil_lines]
  constructor
  · simp
  · intro ln hln
    rcases List.mem_append.mp hln with hfm | htail
    · rw [generateFrontmatter_lines o now hnow] at hfm
      rcases List.mem_append.mp hfm with h1 | h2
      · rcases List.mem_append.mp h1 with h3 | h4
        · simp only [List.mem_cons, List.not_mem_nil, or_false] at h3
          rcases h3 with rfl | rfl <;> decide
        · cases hti : o.includeTags
          · rw [hti] at h4
            simp at h4
          · rw [hti] at h4
            simp only [if_true, List.mem_cons, List.not_mem_nil, or_false] at h4
            rcases h4 with rfl | rfl | rfl <;> decide
      · simp only [List.mem_cons, List.not_mem_nil, or_false] at h2
        rcases h2 with rfl | rfl
        · apply strStarts_hash_false
          rw [String.data_append,
            show ("updated: " : String).data = 'u' :: "pdated: ".data from rfl]
          simp
        · decide
    · simp only [List.mem_cons, List.not_mem_nil, or_false] at htail
      rcases htail with rfl | rfl | rfl | rfl | rfl <;> decide

/-- Witness for C9 at a concrete options/clock value. -/
theorem empty_doc_witness :
    "*No annotations found.*" ∈
      linesOfStr (toMarkdown [] sampleOpts none none "2025-01-01T00:00:00.000Z") :=
  (empty_doc sampleOpts none none "2025-01-01T00:00:00.000Z" (by decide)).1

/-! ## C10: non-empty documents -/

/-- C10 counterexample: a non-empty annotation list whose series name is
the placeholder text produces a document that does contain the
substring `*No annotations found.*` — user-supplied names can inject
it, so the claim's unconditional non-containment is false. -/
theorem nonempty_doc_counterexample :
    ([annInject] : List AnnotationDto) ≠ [] ∧
    strContains "*No annotations found.*"
      (toMarkdown [annInject] sampleOpts none none "T") = true := by
  exact ⟨by decide, by decide⟩

/-- A string whose code points do not begin `*N` is not the
placeholder. -/
theorem ne_placeholder_of_data {s : String}
    (h : ∀ r, s.data ≠ '*' :: 'N' :: r) : s ≠ "*No annotations found.*" := by
  intro heq
  exact h ("o annotations found.*" : String).data (by rw [heq])

/-- Appending after a string with known first two characters. -/
theorem append_data_cons₂ (pre x : String) {c₁ c₂ : Char} {r : List Char}
    (hpre : pre.data = c₁ :: c₂ :: r) :
    (pre ++ x).data = c₁ :: c₂ :: (r ++ x.data) := by
  rw [String.data_append, hpre]
  rfl

/-- A string with a non-`*` head is not the placeholder. -/
theorem ne_ph_head {s : String} {c : Char} {r : List Char}
    (hdata : s.data = c :: r) (hc : c ≠ '*') :
    s ≠ "*No annotations found.*" := by
  apply ne_placeholder_of_data
  intro r' heq
  rw [hdata] at heq
  injection heq with h1 _
  exact hc h1

/-- A string beginning `**` is not the placeholder. -/
theorem ne_ph_star₂ {s : String} {r : List Char}
    (hdata : s.data = '*' :: '*' :: r) :
    s ≠ "*No annotations found.*" := by
  apply ne_placeholder_of_data
  intro r' heq
  rw [hdata] at heq
  injection heq with _ h2
  injection h2 with h2' _
  exact absurd h2' (by decide)

/-- Membership in a conditional block implies membership in its
non-trivial branch. -/
theorem mem_if_list {c : Prop} [Decidable c] {p : String} {xs : List String}
    (h : p ∈ if c then xs else []) : p ∈ xs := by
  by_cases hc : c
  · rwa [if_pos hc] at h
  · rw [if_neg hc] at h
    cases h

/-- Every rendering `formatAnnotation` returns begins with `"> "`. -/
theorem formatAnnotation_data {a : AnnotationDto} {o : FormatOptions}
    {fstr : String} (hfa : formatAnnotation a o = some fstr) :
    ∃ r, fstr.data = '>' :: ' ' :: r := by
  rw [ formatAnnotation] at hfa
  by_cases hsp : (a.containsSpoiler && !o.includeSpoilers) = true
  · rw [if_pos hsp] at hfa
    cases hfa
  · rw [if_neg hsp] at hfa
    injection hfa with hfa
    obtain ⟨rbq, hbq⟩ := blockquoteOf_data (a.selectedText.getD "")
    obtain ⟨t, ht⟩ := sjoin_data_cons "\n" (blockquoteOf (a.selectedText.getD ""))
      ((if o.includeComments && jsHasComment a.comment then
        ["", "*Note:* " ++ a.comment.getD ""] else []) ++
       (if 0 < a.pageNumber then
        ["", "<small>Page " ++ toString a.pageNumber ++ "</small>"] else []))
    refine ⟨rbq ++ t, ?_⟩
    rw [← hfa, show formatAnnotationLines a o =
      blockquoteOf (a.selectedText.getD "") ::
      ((if o.includeComments && jsHasComment a.comment then
        ["", "*Note:* " ++ a.comment.getD ""] else []) ++
       (if 0 < a.pageNumber then
        ["", "<small>Page " ++ toString a.pageNumber ++ "</small>"] else []))
      from rfl, ht, hbq]
    rfl

/-- The frontmatter begins with the `---` delimiter. -/
theorem generateFrontmatter_head (o : FormatOptions) (now : String) :
    ∃ t, (generateFrontmatter o now).data = '-' :: '-' :: t := by
  obtain ⟨t, ht⟩ := sjoin_data_cons "\n" "---"
    (["title: Kavita Annotations"] ++
      (if o.includeTags then ["tags:", "  - annotations", "  - kavita"]
        else []) ++ ["updated: " ++ now, "---"])
  refine ⟨'-' :: t, ?_⟩
  rw [show generateFrontmatter o now = sjoin "\n" ("---" ::
    (["title: Kavita Annotations"] ++
      (if o.includeTags then ["tags:", "  - annotations", "  - kavita"]
        else []) ++ ["updated: " ++ now, "---"])) from rfl, ht]
  rfl

/-- No block the non-empty branch emits is the placeholder text. -/
theorem pieces_ne_placeholder (l : List AnnotationDto) (o : FormatOptions)
    (mm : Option SeriesMetadataMap) (cm : Option ChapterInfoMap)
    (now : String) :
    ∀ p ∈ toMarkdownPieces l o mm cm now, p ≠ "*No annotations found.*" := by
  intro p hp
  rw [toMarkdownPieces] at hp
  rcases List.mem_append.mp hp with hhead | hflat
  · simp only [List.mem_cons, List.not_mem_nil, or_false] at hhead
    rcases hhead with rfl | rfl | rfl | rfl
    · obtain ⟨t, ht⟩ := generateFrontmatter_head o now
      exact ne_ph_head ht (by decide)
    · decide
    · decide
    · decide
  · obtain ⟨se, hse, hpf⟩ := List.mem_flatMap.mp hflat
    cases hse2 : se.2 with
    | nil =>
      rw [hse2] at hpf
      cases hpf
    | cons firstAnn restA =>
      rw [hse2] at hpf
      rcases List.mem_append.mp hpf with h1 | hbook
      · rcases List.mem_append.mp h1 with hhdr | hblank
        · rw [generateSeriesHeader] at hhdr
          rcases List.mem_append.mp hhdr with h2 | hlib
          · rcases List.mem_append.mp h2 with hh | hwl
            · simp only [List.mem_cons, List.not_mem_nil, or_false] at hh
              subst hh
              exact ne_ph_head (append_data_cons₂ "## " _ rfl) (by decide)
            · have := mem_if_list hwl
              simp only [List.mem_cons, List.not_mem_nil, or_false] at this
              subst this
              exact ne_ph_star₂ (append_data_cons₂ "**Series:** " _ rfl)
          · simp only [List.mem_cons, List.not_mem_nil, or_false] at hlib
            subst hlib
            exact ne_ph_star₂ (append_data_cons₂ "**Library:** " _ rfl)
        · simp only [List.mem_cons, List.not_mem_nil, or_false] at hblank
          subst hblank
          decide
      · obtain ⟨bg, hbgmem, hpb⟩ := List.mem_flatMap.mp hbook
        rcases List.mem_append.mp hpb with h3 | hchap
        · rcases List.mem_append.mp h3 with hbh | hblank
          · rw [generateBookHeader] at hbh
            rcases List.mem_append.mp hbh with h4 | hT
            · rcases List.mem_append.mp h4 with h5 | hG
              · rcases List.mem_append.mp h5 with h6 | hB
                · rcases List.mem_append.mp h6 with h7 | hA
                  · simp only [List.mem_cons, List.not_mem_nil, or_false] at h7
                    subst h7
                    exact ne_ph_head (append_data_cons₂ "### " _ rfl) (by decide)
                  · have := mem_if_list hA
                    simp only [List.mem_cons, List.not_mem_nil, or_false] at this
                    subst this
                    by_cases hwl : o.includeWikilinks = true
                    · rw [if_pos hwl]
                      exact ne_ph_star₂ (append_data_cons₂ "**Author:** " _ rfl)
                    · rw [if_neg hwl]
                      exact ne_ph_star₂ (append_data_cons₂ "**Author:** " _ rfl)
                · have := mem_if_list hB
                  simp only [List.mem_cons, List.not_mem_nil, or_false] at this
                  subst this
                  exact ne_ph_star₂ (append_data_cons₂ "**Book:** " _ rfl)
              · have := mem_if_list hG
                simp only [List.mem_cons, List.not_mem_nil, or_false] at this
                subst this
                exact ne_ph_star₂ (append_data_cons₂ "**Genres:** " _ rfl)
            · have := mem_if_list hT
              simp only [List.mem_cons, List.not_mem_nil, or_false] at this
              subst this
              exact ne_ph_star₂ (append_data_cons₂ "**Tags:** " _ rfl)
          · simp only [List.mem_cons, List.not_mem_nil, or_false] at hblank
            subst hblank
            decide
        · obtain ⟨cg, hcgmem, hpc⟩ := List.mem_flatMap.mp hchap
          rcases List.mem_append.mp hpc with h8 | hbody
          · simp only [List.mem_cons, List.not_mem_nil, or_false] at h8
            rcases h8 with rfl | rfl
            · exact ne_ph_head (append_data_cons₂ "#### Chapter: " _ rfl)
                (by decide)
            · decide
          · obtain ⟨fstr, hfmem, hpf2⟩ := List.mem_flatMap.mp hbody
            simp only [List.mem_cons, List.not_mem_nil, or_false] at hpf2
            rcases hpf2 with rfl | rfl | rfl | rfl
            · obtain ⟨a, _, hfa⟩ := List.mem_filterMap.mp hfmem
              obtain ⟨r, hr⟩ := formatAnnotation_data hfa
              exact ne_ph_head hr (by decide)
            · decide
            · decide
            · decide

/-- Splitting map-and-join fusion for line lists. -/
theorem map_mk_flatMap (ds : List String) :
    ((ds.map String.data).flatMap splitNl).map String.mk =
      ds.flatMap fun p => (splitNl p.data).map String.mk := by
  induction ds with
  | nil => rfl
  | cons d t ih =>
    rw [List.map_cons, List.flatMap_cons, List.flatMap_cons, List.map_append, ih]

/-- The lines of a joined block sequence are the per-block lines, in
order. -/
theorem linesOfStr_pieces (ps : List String) (hps : ps.map String.data ≠ []) :
    linesOfStr (sjoin "\n" ps) =
      ps.flatMap fun p => (splitNl p.data).map String.mk := by
  rw [linesOfStr,
    show (sjoin "\n" ps).data = joinSepData ['\n'] (ps.map String.data) from rfl,
    splitNl_join hps, map_mk_flatMap]

/-- The first line of a `## ` header block. -/
theorem splitNl_hash_piece (s : String) :
    ∃ h₀ t₀, splitNl ("## " ++ s).data = ('#' :: '#' :: ' ' :: h₀) :: t₀ := by
  obtain ⟨h₀, t₀, hs⟩ : ∃ h t, splitNl s.data = h :: t := by
    cases hcs : splitNl s.data with
    | nil => exact absurd hcs (splitNl_ne_nil _)
    | cons x y => exact ⟨x, y, rfl⟩
  refine ⟨h₀, t₀, ?_⟩
  have e1 := splitNl_cons_ne (show ' ' ≠ '\n' by decide) hs
  have e2 := splitNl_cons_ne (show '#' ≠ '\n' by decide) e1
  have e3 := splitNl_cons_ne (show '#' ≠ '\n' by decide) e2
  rw [show ("## " ++ s).data = '#' :: '#' :: ' ' :: s.data from by
    rw [String.data_append]; rfl]
  exact e3

/-- C10 (amended): every non-empty annotation list yields the non-empty
branch — the document is the newline join of the emitted block
sequence, it contains a line beginning with `## `, and none of the
emitted blocks is the placeholder `*No annotations found.*` (the
placeholder can only reach the document inside annotation-supplied
text, as the counterexample shows).  This holds even when every
annotation is suppressed as a spoiler. -/
theorem nonempty_doc (l : List AnnotationDto) (o : FormatOptions)
    (mm : Option SeriesMetadataMap) (cm : Option ChapterInfoMap)
    (now : String) (hl : l ≠ []) :
    toMarkdown l o mm cm now = sjoin "\n" (toMarkdownPieces l o mm cm now) ∧
    (∃ ln ∈ linesOfStr (toMarkdown l o mm cm now),
      strStarts "## " ln = true) ∧
    (∀ p ∈ toMarkdownPieces l o mm cm now,
      p ≠ "*No annotations found.*") := by
  have hbranch : toMarkdown l o mm cm now =
      sjoin "\n" (toMarkdownPieces l o mm cm now) := by
    rw [toMarkdown, if_neg]
    intro hcontra
    exact hl (by simpa using hcontra)
  refine ⟨hbranch, ?_, pieces_ne_placeholder l o mm cm now⟩
  obtain ⟨a₀, l', rfl⟩ : ∃ a₀ l', l = a₀ :: l' := by
    cases l with
    | nil => exact absurd rfl hl
    | cons x t => exact ⟨x, t, rfl⟩
  have hk : (fun a : AnnotationDto => toString a.seriesId) a₀ ∈
      firstSeenKeys ((a₀ :: l').map fun a : AnnotationDto =>
        toString a.seriesId) :=
    mem_firstSeenKeys.mpr (List.mem_map.mpr ⟨a₀, by simp, rfl⟩)
  have hmem_r : ((fun a : AnnotationDto => toString a.seriesId) a₀,
      (a₀ :: l').filter fun x =>
        (fun a : AnnotationDto => toString a.seriesId) x ==
        (fun a : AnnotationDto => toString a.seriesId) a₀) ∈
      jsGroupBy (fun a : AnnotationDto => toString a.seriesId) (a₀ :: l') := by
    rw [jsGroupBy_eq]
    exact List.mem_map.mpr ⟨_, hk, rfl⟩
  have hmem_e : ((fun a : AnnotationDto => toString a.seriesId) a₀,
      (a₀ :: l').filter fun x =>
        (fun a : AnnotationDto => toString a.seriesId) x ==
        (fun a : AnnotationDto => toString a.seriesId) a₀) ∈
      toEntries (groupBySeriesId (a₀ :: l')) := mem_toEntries.mpr hmem_r
  obtain ⟨firstAnn, restA, hcons⟩ : ∃ f r, ((a₀ :: l').filter fun x =>
      (fun a : AnnotationDto => toString a.seriesId) x ==
      (fun a : AnnotationDto => toString a.seriesId) a₀) = f :: r := by
    cases hf : ((a₀ :: l').filter fun x =>
        (fun a : AnnotationDto => toString a.seriesId) x ==
        (fun a : AnnotationDto => toString a.seriesId) a₀) with
    | nil =>
      have : a₀ ∈ ((a₀ :: l').filter fun x =>
          (fun a : AnnotationDto => toString a.seriesId) x ==
          (fun a : AnnotationDto => toString a.seriesId) a₀) :=
        List.mem_filter.mpr ⟨List.mem_cons_self _ _, by simp⟩
      rw [hf] at this
      cases this
    | cons f r => exact ⟨f, r, rfl⟩
  have hpiece : ("## " ++ getSeriesName firstAnn) ∈
      toMarkdownPieces (a₀ :: l') o mm cm now := by
    rw [toMarkdownPieces]
    apply List.mem_append.mpr
    right
    apply List.mem_flatMap.mpr
    refine ⟨_, hmem_e, ?_⟩
    rw [hcons]
    apply List.mem_append.mpr
    left
    apply List.mem_append.mpr
    left
    rw [generateSeriesHeader]
    apply List.mem_append.mpr
    left
    apply List.mem_append.mpr
    left
    exact List.mem_cons_self _ _
  obtain ⟨h₀, t₀, hsplit⟩ := splitNl_hash_piece (getSeriesName firstAnn)
  refine ⟨String.mk ('#' :: '#' :: ' ' :: h₀), ?_, ?_⟩
  · rw [hbranch, linesOfStr_pieces _ (by rw [toMarkdownPieces]; simp)]
    apply List.mem_flatMap.mpr
    refine ⟨"## " ++ getSeriesName firstAnn, hpiece, ?_⟩
    rw [hsplit]
    exact List.mem_map.mpr ⟨_, List.mem_cons_self _ _, rfl⟩
  · rw [strStarts, show ("## " : String).data = ['#', '#', ' '] from rfl]
    simp [listStarts, List.isPrefixOf]

/-- Witness for C10 at a concrete input, including the fully-filtered
case: a single spoiler annotation with spoilers excluded still yields a
series header line. -/
theorem nonempty_doc_witness :
    ∃ ln ∈ linesOfStr (toMarkdown [{ sampleAnn with containsSpoiler := true }]
      sampleOpts none none "T"), strStarts "## " ln = true :=
  (nonempty_doc [{ sampleAnn with containsSpoiler := true }] sampleOpts
    none none "T" (by decide)).2.1

/-! ## C4: spoiler suppression -/

/-- Grouping commutes with a key-preserving element map. -/
theorem jsGroupBy_map (key : AnnotationDto → String)
    (f : AnnotationDto → AnnotationDto) (hkey : ∀ a, key (f a) = key a)
    (l : List AnnotationDto) :
    jsGroupBy key (l.map f) =
      (jsGroupBy key l).map fun e => (e.1, e.2.map f) := by
  rw [jsGroupBy_eq, jsGroupBy_eq]
  have h1 : (l.map f).map key = l.map key := by
    rw [List.map_map]
    exact List.map_congr_left fun a _ => hkey a
  rw [h1, List.map_map]
  apply List.map_congr_left
  intro k _
  show (k, (l.map f).filter fun x => key x == k) = (k, _)
  congr 1
  rw [List.filter_map]
  congr 1
  apply List.filter_congr
  intro a _
  show (key (f a) == k) = (key a == k)
  rw [hkey]

/-- Ordered insertion commutes with a key-preserving element map. -/
theorem orderedInsert_map {α γ : Type} [LinearOrder γ] (key : α → γ)
    (m : α → α) (hm : ∀ x, key (m x) = key x) (x : α) (L : List α) :
    List.orderedInsert (fun a b => key a ≤ key b) (m x) (L.map m) =
      (List.orderedInsert (fun a b => key a ≤ key b) x L).map m := by
  induction L with
  | nil => rfl
  | cons y ys ih =>
    by_cases hr : key x ≤ key y
    · rw [List.map_cons, List.orderedInsert, List.orderedInsert, if_pos hr,
        if_pos (by rw [hm, hm]; exact hr)]
      rfl
    · rw [List.map_cons, List.orderedInsert, List.orderedInsert, if_neg hr,
        if_neg (by rw [hm, hm]; exact hr), List.map_cons, ih]

/-- The stable sort commutes with a key-preserving element map. -/
theorem insertionSort_map {α γ : Type} [LinearOrder γ] (key : α → γ)
    (m : α → α) (hm : ∀ x, key (m x) = key x) (l : List α) :
    List.insertionSort (fun a b => key a ≤ key b) (l.map m) =
      (List.insertionSort (fun a b => key a ≤ key b) l).map m := by
  induction l with
  | nil => rfl
  | cons x xs ih =>
    rw [List.map_cons, List.insertionSort, List.insertionSort, ih,
      orderedInsert_map key m hm]

/-- Record enumeration commutes with a per-group value map. -/
theorem toEntries_map (f : AnnotationDto → AnnotationDto)
    (r : List (String × List AnnotationDto)) :
    toEntries (r.map fun e => (e.1, e.2.map f)) =
      (toEntries r).map fun e => (e.1, e.2.map f) := by
  have hfilt : ∀ p : String → Bool,
      (r.map fun e => (e.1, e.2.map f)).filter (fun e => p e.1) =
      (r.filter fun e => p e.1).map fun e => (e.1, e.2.map f) := by
    intro p
    rw [List.filter_map]
    rfl
  rw [toEntries, toEntries, List.map_append]
  congr 1
  · rw [hfilt isArrayIndexKey]
    exact insertionSort_map
      (fun e : String × List AnnotationDto => parseNat e.1.data)
      (fun e => (e.1, e.2.map f)) (fun x => rfl) _
  · exact hfilt fun k => !isArrayIndexKey k

/-- Chapter ids survive a selectedText-only rewrite. -/
theorem chapterId_map {f : AnnotationDto → AnnotationDto}
    (hf : ∀ a, f a = { a with selectedText := (f a).selectedText })
    (a : AnnotationDto) : (f a).chapterId = a.chapterId := by
  rw [hf a]

/-- Series display names survive a selectedText-only rewrite. -/
theorem getSeriesName_map {f : AnnotationDto → AnnotationDto}
    (hf : ∀ a, f a = { a with selectedText := (f a).selectedText })
    (a : AnnotationDto) : getSeriesName (f a) = getSeriesName a := by
  unfold getSeriesName
  rw [hf a]

/-- Library display names survive a selectedText-only rewrite. -/
theorem getLibraryName_map {f : AnnotationDto → AnnotationDto}
    (hf : ∀ a, f a = { a with selectedText := (f a).selectedText })
    (a : AnnotationDto) : getLibraryName (f a) = getLibraryName a := by
  unfold getLibraryName
  rw [hf a]

/-- Chapter display names survive a selectedText-only rewrite. -/
theorem getChapterTitle_map {f : AnnotationDto → AnnotationDto}
    (hf : ∀ a, f a = { a with selectedText := (f a).selectedText })
    (a : AnnotationDto) : getChapterTitle (f a) = getChapterTitle a := by
  unfold getChapterTitle
  rw [hf a]

/-- Book titles survive a selectedText-only rewrite. -/
theorem getBookTitle_map {f : AnnotationDto → AnnotationDto}
    (hf : ∀ a, f a = { a with selectedText := (f a).selectedText })
    (cm : Option ChapterInfoMap) (a : AnnotationDto) :
    getBookTitle (f a) cm = getBookTitle a cm := by
  cases cm with
  | none => exact getSeriesName_map hf a
  | some m =>
    show (match List.lookup (f a).chapterId m with
          | some ci => ci.bookTitle
          | none => getSeriesName (f a)) =
        (match List.lookup a.chapterId m with
          | some ci => ci.bookTitle
          | none => getSeriesName a)
    rw [chapterId_map hf]
    cases List.lookup a.chapterId m with
    | some ci => rfl
    | none => exact getSeriesName_map hf a

/-- Book authors survive a selectedText-only rewrite of the group. -/
theorem getBookAuthors_map {f : AnnotationDto → AnnotationDto}
    (hf : ∀ a, f a = { a with selectedText := (f a).selectedText })
    (g : List AnnotationDto) (cm : Option ChapterInfoMap) :
    getBookAuthors (g.map f) cm = getBookAuthors g cm := by
  cases g with
  | nil => rfl
  | cons fa t =>
    cases cm with
    | none => rfl
    | some m =>
      show (match List.lookup (f fa).chapterId m with
            | some ci => ci.authors
            | none => []) =
          (match List.lookup fa.chapterId m with
            | some ci => ci.authors
            | none => [])
      rw [chapterId_map hf]

/-- Book genres survive a selectedText-only rewrite of the group. -/
theorem getBookGenres_map {f : AnnotationDto → AnnotationDto}
    (hf : ∀ a, f a = { a with selectedText := (f a).selectedText })
    (g : List AnnotationDto) (cm : Option ChapterInfoMap) :
    getBookGenres (g.map f) cm = getBookGenres g cm := by
  cases g with
  | nil => rfl
  | cons fa t =>
    cases cm with
    | none => rfl
    | some m =>
      show (match List.lookup (f fa).chapterId m with
            | some ci => ci.genres
            | none => []) =
          (match List.lookup fa.chapterId m with
            | some ci => ci.genres
            | none => [])
      rw [chapterId_map hf]

/-- Book sort orders survive a selectedText-only rewrite of the group. -/
theorem getBookSortOrder_map {f : AnnotationDto → AnnotationDto}
    (hf : ∀ a, f a = { a with selectedText := (f a).selectedText })
    (bt : String) (g : List AnnotationDto) (cm : Option ChapterInfoMap) :
    getBookSortOrder bt (g.map f) cm = getBookSortOrder bt g cm := by
  cases g with
  | nil => rfl
  | cons fa t =>
    cases cm with
    | none => rfl
    | some m =>
      show (match List.lookup (f fa).chapterId m with
            | some ci => ci.sortOrder
            | none => 0) =
          (match List.lookup fa.chapterId m with
            | some ci => ci.sortOrder
            | none => 0)
      rw [chapterId_map hf]

/-- With spoilers excluded, rendering is unchanged by a rewrite of the
spoiler-flagged annotations' highlighted text. -/
theorem formatAnnotation_map {f : AnnotationDto → AnnotationDto}
    {o : FormatOptions} (hincl : o.includeSpoilers = false)
    (hf : ∀ a, f a = { a with selectedText := (f a).selectedText })
    (hid : ∀ a, a.containsSpoiler = false → f a = a) (a : AnnotationDto) :
    formatAnnotation (f a) o = formatAnnotation a o := by
  cases hsp : a.containsSpoiler with
  | false => rw [hid a hsp]
  | true =>
    have hsp' : (f a).containsSpoiler = true := by rw [hf a]; exact hsp
    rw [ formatAnnotation, formatAnnotation, hsp', hsp, hincl]
    rfl

/-- Pointwise-equal functions give equal flat maps. -/
theorem flatMap_congr' {α β : Type} {g₁ g₂ : α → List β} {l : List α}
    (h : ∀ a ∈ l, g₁ a = g₂ a) : l.flatMap g₁ = l.flatMap g₂ := by
  induction l with
  | nil => rfl
  | cons x t ih =>
    rw [List.flatMap_cons, List.flatMap_cons, h x (List.mem_cons_self _ _),
      ih fun a ha => h a (List.mem_cons_of_mem _ ha)]

/-- The sorted book groups commute with a selectedText-only rewrite. -/
theorem getSortedBookGroups_map {f : AnnotationDto → AnnotationDto}
    (hf : ∀ a, f a = { a with selectedText := (f a).selectedText })
    (g : List AnnotationDto) (cm : Option ChapterInfoMap) :
    getSortedBookGroups (g.map f) cm =
      (getSortedBookGroups g cm).map fun e => (e.1, e.2.map f) := by
  have h1 : groupByBookTitle (g.map f) cm =
      (groupByBookTitle g cm).map fun e => (e.1, e.2.map f) :=
    jsGroupBy_map _ f (fun a => getBookTitle_map hf cm a) g
  rw [getSortedBookGroups, getSortedBookGroups, h1, toEntries_map]
  exact insertionSort_map
    (fun e : String × List AnnotationDto => getBookSortOrder e.1 e.2 cm)
    (fun e => (e.1, e.2.map f))
    (fun e => getBookSortOrder_map hf e.1 e.2 cm) _

/-- The emitted block sequence is unchanged when the highlighted text
of spoiler-flagged annotations is rewritten and spoilers are
excluded. -/
theorem toMarkdownPieces_map {f : AnnotationDto → AnnotationDto}
    {o : FormatOptions} (hincl : o.includeSpoilers = false)
    (hf : ∀ a, f a = { a with selectedText := (f a).selectedText })
    (hid : ∀ a, a.containsSpoiler = false → f a = a)
    (l : List AnnotationDto) (mm : Option SeriesMetadataMap)
    (cm : Option ChapterInfoMap) (now : String) :
    toMarkdownPieces (l.map f) o mm cm now = toMarkdownPieces l o mm cm now := by
  have hgs : groupBySeriesId (l.map f) =
      (groupBySeriesId l).map fun e => (e.1, e.2.map f) :=
    jsGroupBy_map _ f (fun a => by rw [hf a]) l
  rw [toMarkdownPieces, toMarkdownPieces, hgs, toEntries_map, List.flatMap_map]
  congr 1
  apply flatMap_congr'
  intro se _
  show (match se.2.map f with
        | [] => ([] : List String)
        | firstAnn :: _ => _) = _
  cases se.2 with
  | nil => rfl
  | cons firstAnn restA =>
    show generateSeriesHeader (f firstAnn) o _ ++ [""] ++
        (getSortedBookGroups ((firstAnn :: restA).map f) cm).flatMap _ =
      generateSeriesHeader firstAnn o _ ++ [""] ++
        (getSortedBookGroups (firstAnn :: restA) cm).flatMap _
    have hhdr : generateSeriesHeader (f firstAnn) o
        (mm.bind fun m => (jsNumberOfKey se.1).bind fun n => List.lookup n m) =
        generateSeriesHeader firstAnn o
        (mm.bind fun m => (jsNumberOfKey se.1).bind fun n => List.lookup n m) := by
      unfold generateSeriesHeader
      rw [getSeriesName_map hf, getLibraryName_map hf]
    rw [hhdr, getSortedBookGroups_map hf, List.flatMap_map]
    congr 1
    apply flatMap_congr'
    intro bg _
    show generateBookHeader bg.1 o (getBookAuthors (bg.2.map f) cm)
          (getBookGenres (bg.2.map f) cm) ++ [""] ++
        (toEntries (groupByChapterId (bg.2.map f))).flatMap _ =
      generateBookHeader bg.1 o (getBookAuthors bg.2 cm)
          (getBookGenres bg.2 cm) ++ [""] ++
        (toEntries (groupByChapterId bg.2)).flatMap _
    have hgc : groupByChapterId (bg.2.map f) =
        (groupByChapterId bg.2).map fun e => (e.1, e.2.map f) :=
      jsGroupBy_map _ f (fun a => by rw [hf a]) bg.2
    rw [getBookAuthors_map hf, getBookGenres_map hf, hgc, toEntries_map,
      List.flatMap_map]
    congr 1
    apply flatMap_congr'
    intro cg _
    show ["#### Chapter: " ++
        (match cg.2.map f with
          | [] => "Unknown Chapter"
          | fc :: _ => getChapterTitle fc), ""] ++
        ((cg.2.map f).filterMap fun a => formatAnnotation a o).flatMap
          (fun x => [x, "", "---", ""]) = _
    have hbody : (cg.2.map f).filterMap (fun a => formatAnnotation a o) =
        cg.2.filterMap fun a => formatAnnotation a o := by
      rw [List.filterMap_map]
      apply List.filterMap_congr
      intro a _
      exact formatAnnotation_map hincl hf hid a
    rw [hbody]
    cases cg.2 with
    | nil => rfl
    | cons fc t =>
      have hct : (match (fc :: t).map f with
          | [] => "Unknown Chapter"
          | fc :: _ => getChapterTitle fc) =
          (match fc :: t with
          | [] => "Unknown Chapter"
          | fc :: _ => getChapterTitle fc) := by
        show getChapterTitle (f fc) = getChapterTitle fc
        exact getChapterTitle_map hf fc
      rw [hct]

/-- C4: rendering returns no output exactly for a spoiler-flagged
annotation with spoilers excluded; consequently, with
`includeSpoilers = false` the whole document is unchanged when the
highlighted text of every spoiler-flagged annotation is rewritten
arbitrarily — a suppressed annotation's highlighted text never
influences (in particular never appears in) the built document. -/
theorem spoiler_filtering :
    (∀ (a : AnnotationDto) (o : FormatOptions),
      formatAnnotation a o = none ↔
        (a.containsSpoiler = true ∧ o.includeSpoilers = false)) ∧
    (∀ (f : AnnotationDto → AnnotationDto) (l : List AnnotationDto)
      (o : FormatOptions) (mm : Option SeriesMetadataMap)
      (cm : Option ChapterInfoMap) (now : String),
      o.includeSpoilers = false →
      (∀ a, f a = { a with selectedText := (f a).selectedText }) →
      (∀ a, a.containsSpoiler = false → f a = a) →
      toMarkdown (l.map f) o mm cm now = toMarkdown l o mm cm now) := by
  constructor
  · intro a o
    rw [ formatAnnotation]
    by_cases hsp : (a.containsSpoiler && !o.includeSpoilers) = true
    · rw [if_pos hsp]
      simp only [Bool.and_eq_true, Bool.not_eq_true'] at hsp
      simp [hsp]
    · rw [if_neg hsp]
      simp only [Bool.and_eq_true, Bool.not_eq_true'] at hsp
      constructor
      · intro hcontra
        cases hcontra
      · intro ⟨h1, h2⟩
        exact absurd ⟨h1, h2⟩ hsp
  · intro f l o mm cm now hincl hf hid
    cases l with
    | nil => rfl
    | cons a t =>
      have hne : ((a :: t).map f).isEmpty = false := rfl
      rw [toMarkdown, toMarkdown]
      rw [show ((a :: t).map f).isEmpty = false from rfl,
        show (a :: t).isEmpty = false from rfl]
      simp only [Bool.false_eq_true, if_false]
      rw [toMarkdownPieces_map hincl hf hid]

/-- Witness for C4 at a concrete input: rewriting a spoiler's
highlighted text leaves the document unchanged when spoilers are
excluded. -/
theorem spoiler_filtering_witness :
    toMarkdown ([{ sampleAnn with containsSpoiler := true }, annS1a].map
      fun a => if a.containsSpoiler then
        { a with selectedText := some "REDACTED" } else a)
      sampleOpts none none "T" =
    toMarkdown [{ sampleAnn with containsSpoiler := true }, annS1a]
      sampleOpts none none "T" :=
  spoiler_filtering.2
    (fun a => if a.containsSpoiler then
      { a with selectedText := some "REDACTED" } else a)
    [{ sampleAnn with containsSpoiler := true }, annS1a]
    sampleOpts none none "T" rfl
    (fun a => by
      show (if a.containsSpoiler = true then
          ({ a with selectedText := some "REDACTED" } : AnnotationDto) else a) =
        { a with selectedText :=
          (if a.containsSpoiler = true then
            ({ a with selectedText := some "REDACTED" } : AnnotationDto)
          else a).selectedText }
      by_cases hsp : a.containsSpoiler = true
      · rw [if_pos hsp]
      · rw [if_neg hsp])
    (fun a ha => by simp [ha])

end Kavita
